import Mathlib

/-!
Verification of the `@ilogico/h` declarative UI runtime (src/h.ts) against its
natural-language specification.  The development shallowly embeds the data
model and operations of the source file: JavaScript values are modelled by the
inductive `JValue` (with an explicit `undef` constructor, since the code
distinguishes `undefined` both in attribute filtering and in out-of-range array
reads), JavaScript strict equality `===` is modelled by decidable equality on
the embedding (two reference-equal objects map to equal Lean values), and the
DOM is modelled by a trace of host operations (`HOp`).
-/

set_option autoImplicit false

namespace HRuntime

/-- Model of a JavaScript runtime value as it appears in property bags and
dependency arrays.  `undef` models `undefined` (dropped by `getAttributes`,
produced by out-of-range array reads); `fnV`/`boxV` model function and plain
object references by identity tokens; `nullV` models `null`. -/
inductive JValue where
  | undef : JValue
  | nullV : JValue
  | str : String → JValue
  | num : Int → JValue
  | fnV : Nat → JValue
  | boxV : Nat → JValue
deriving DecidableEq, Repr

/-- Model of the `Ref<T>` argument of `useImperativeHandle` / element `ref`
props: either a callback function or a mutable box, identified by reference
token. -/
inductive RefV where
  | fn : Nat → RefV
  | box : Nat → RefV
deriving DecidableEq, Repr

/-- JavaScript array read `a[i]`: out-of-range reads yield `undefined`. -/
def jsGet (l : List JValue) (i : Nat) : JValue :=
  l.getD i JValue.undef

/-- Element-wise scan shared by the loops of `haveDependenciesChanged`
(src/h.ts lines 1005-1007) and `UpdateHooks.useMemo` (lines 916-921): iterate
`i` over the indices of `a` and report whether `a[i] !== b[i]` for some such
`i` (both source loops `return`/`break` at the first inequality, which is
observably the same as this scan).  Out-of-range reads of `b` yield
`undefined`, exactly as in JavaScript. -/
def scanNe (a b : List JValue) (i : Nat) : Bool :=
  if _h : i < a.length then
    if jsGet a i ≠ jsGet b i then true else scanNe a b (i + 1)
  else false
termination_by a.length - i

/-- Translation of `haveDependenciesChanged` (src/h.ts lines 1002-1009):
`if (!previous || !next || previous.length !== next.length) return true;`
then the element-wise loop over `previous.length` returning `true` at the
first strict inequality.  `none` models an absent (`undefined`) dependency
list. -/
def haveDependenciesChanged (previous next : Option (List JValue)) : Bool :=
  match previous, next with
  | some p, some n =>
      if p.length ≠ n.length then true
      else scanNe p n 0
  | _, _ => true

/-- State of a `useMemo` slot: the cached value and the dependency list stored
by the previous call (`{ value, dependencies }` in the source). -/
structure MemoCell where
  value : JValue
  dependencies : List JValue
deriving DecidableEq, Repr

/-- Translation of `UpdateHooks.useMemo` (src/h.ts lines 910-925).  The
producer is modelled as a function from its invocation index (0-based, within
this hook call) to the produced value, so that the number of invocations is
observable.  Returns the updated cell, the returned value and the number of
producer invocations.  Faithful to the source: the length test and the
element-wise scan each invoke the producer independently, and
`memo.dependencies = dependencies` is assigned at the end. -/
def useMemoUpdate (memo : MemoCell) (dependencies : List JValue)
    (producer : Nat → JValue) : MemoCell × JValue × Nat :=
  let calls0 : Nat := 0
  let (v1, calls1) :=
    if memo.dependencies.length ≠ dependencies.length
    then (producer calls0, calls0 + 1)
    else (memo.value, calls0)
  let (v2, calls2) :=
    if scanNe dependencies memo.dependencies 0
    then (producer calls1, calls1 + 1)
    else (v1, calls1)
  ({ value := v2, dependencies := dependencies }, v2, calls2)

/-- State of an effect record (`interface Effect`, src/h.ts lines 638-641):
the dependency list of the last run that stored one, and the registered
cleanup.  A cleanup is identified by the reference it detaches (for
imperative-handle effects) or by an opaque token; `none` means no cleanup. -/
structure EffectRec where
  dependencies : Option (List JValue)
  cleanup : Option Nat
deriving DecidableEq, Repr

/-- Translation of `UpdateHooks.useCommonEffect` (src/h.ts lines 989-999):
if `haveDependenciesChanged(data.dependencies, dependencies)` the stored
dependencies are overwritten and a runner closure is returned (modelled as
`true` = the effect is scheduled to re-run); otherwise `null` is returned
(modelled as `false`). -/
def useCommonEffectUpdate (data : EffectRec) (dependencies : Option (List JValue)) :
    EffectRec × Bool :=
  if haveDependenciesChanged data.dependencies dependencies then
    ({ data with dependencies := dependencies }, true)
  else (data, false)

/-- Slot state of a `useImperativeHandle` hook (`data` in the source): the
ref supplied at the previous render, the cached handle and the dependency
list recorded when the slot was created (`CreationHooks.useImperativeHandle`,
src/h.ts line 866). -/
structure IHData where
  ref : Option RefV
  imperativeHandle : JValue
  dependencies : Option (List JValue)
deriving DecidableEq, Repr

/-- Observable actions of one `useImperativeHandle` update call. -/
inductive IHEvent where
  /-- A previously registered cleanup ran, detaching `r` (the source closures
  are `() => ref(null)` and `() => ref.current = null` over the captured
  ref). -/
  | detach : RefV → IHEvent
  /-- The handle was attached to `r` (`ref(handle)` or
  `ref.current = handle`). -/
  | attach : RefV → IHEvent
deriving DecidableEq, Repr

/-- The cleanup stored in an imperative-handle effect record is the ref it
detaches when run (`none`: no cleanup registered). -/
structure IHEffect where
  cleanup : Option RefV
deriving DecidableEq, Repr

/-- Translation of `UpdateHooks.useImperativeHandle` (src/h.ts lines
961-983).  `ref` is the ref supplied by the current render (`none` models
`undefined`), `producedHandle` the value the producer would return.  Returns
the updated slot data, the updated effect record, the emitted events in
order, and the number of producer invocations.  Faithful details: on
`ref !== data.ref` the old cleanup runs (`effect.cleanup?.()`) but is not
cleared; `data.dependencies` is never reassigned; attachment happens only
under `haveDependenciesChanged(data.dependencies, dependencies)`. -/
def useImperativeHandleUpdate (data : IHData) (effect : IHEffect)
    (ref : Option RefV) (dependencies : Option (List JValue))
    (producedHandle : JValue) :
    IHData × IHEffect × List IHEvent × Nat :=
  let (data1, events1) :=
    if ref ≠ data.ref then
      ({ data with ref := ref },
       match effect.cleanup with
       | some r => [IHEvent.detach r]
       | none => [])
    else (data, [])
  if haveDependenciesChanged data1.dependencies dependencies then
    let data2 := { data1 with imperativeHandle := producedHandle }
    match ref with
    | some (RefV.fn f) =>
        (data2, { cleanup := some (RefV.fn f) },
         events1 ++ [IHEvent.attach (RefV.fn f)], 1)
    | some (RefV.box b) =>
        (data2, { cleanup := some (RefV.box b) },
         events1 ++ [IHEvent.attach (RefV.box b)], 1)
    | none =>
        (data2, { cleanup := none }, events1, 1)
  else (data1, effect, events1, 0)

/-! ### Scheduler: binary heap of dirty components (src/h.ts lines 687-799) -/

/-- Entry of `RenderController.updateQueue`: the source stores `ComponentNode`
references and the heap code reads only their `depth`; we record the component
identity (`id`) alongside. -/
structure QNode where
  id : Nat
  depth : Nat
deriving DecidableEq, Repr

/-- The sift-up `while` loop of `enqueueNode` (src/h.ts lines 745-753).
`q` already holds `node` at position `index` (see `enqueueNode`): the source's
first write `queue[index] = parent` targets `index = queue.length`, a position
that is never read before it is first written, so pre-extending the array with
`node` there is observably identical. -/
def enqueueGo (node : QNode) (q : List QNode) (index : Nat) : List QNode :=
  if h : 0 < index then
    let parentIndex := (index - 1) / 2
    let parent := q.getD parentIndex node
    if parent.depth > node.depth then
      enqueueGo node (q.set index parent) parentIndex
    else q.set index node
  else q.set index node
termination_by index
decreasing_by exact Nat.lt_of_le_of_lt (Nat.div_le_self _ 2) (Nat.sub_lt h Nat.one_pos)

/-- Translation of `enqueueNode` (src/h.ts lines 745-753). -/
def enqueueNode (q : List QNode) (node : QNode) : List QNode :=
  enqueueGo node (q ++ [node]) q.length

/-- The sift-down `while` loop of `dequeueNode` (src/h.ts lines 762-794),
including the trailing single-left-child fix-up.  `lastNode` is the element
being repositioned; position `index` is the current hole (its stale content is
never read). -/
def siftDownGo (lastNode : QNode) (q : List QNode) (index : Nat) : List QNode :=
  let leftIndex := 2 * index + 1
  let rightIndex := leftIndex + 1
  if _h : rightIndex < q.length then
    let left := q.getD leftIndex lastNode
    let right := q.getD rightIndex lastNode
    let cand : Nat × QNode :=
      if left.depth < right.depth then (leftIndex, left) else (rightIndex, right)
    if lastNode.depth ≤ cand.2.depth then q.set index lastNode
    else siftDownGo lastNode (q.set index cand.2) cand.1
  else if leftIndex < q.length then
    let left := q.getD leftIndex lastNode
    if lastNode.depth > left.depth then (q.set index left).set leftIndex lastNode
    else q.set index lastNode
  else q.set index lastNode
termination_by q.length - index
decreasing_by
  simp only [List.length_set]
  split <;> omega

/-- `siftDownGo` only performs in-place writes, so it preserves the length of
the queue. -/
theorem siftDownGo_length (lastNode : QNode) (q : List QNode) (index : Nat) :
    (siftDownGo lastNode q index).length = q.length := by
  rw [siftDownGo]
  dsimp only
  split
  · split <;> split
    · simp
    · rw [siftDownGo_length lastNode _ _]
      simp
    · simp
    · rw [siftDownGo_length lastNode _ _]
      simp
  · split
    · split <;> simp
    · simp
termination_by q.length - index
decreasing_by
  all_goals simp only [List.length_set]
  all_goals omega

/-- Translation of `dequeueNode` (src/h.ts lines 755-797).  Returns the
removed minimum together with the remaining queue; `none` when the queue is
empty (the source's `queue.pop()!` is only called on non-empty queues). -/
def dequeueNode (q : List QNode) : Option (QNode × List QNode) :=
  match q.getLast? with
  | none => none
  | some lastNode =>
    let q1 := q.dropLast
    if q1.length = 0 then some (lastNode, q1)
    else
      let result := q1.getD 0 lastNode
      some (result, siftDownGo lastNode (q1.set 0 lastNode) 0)

/-- Dequeueing from a non-empty queue shortens it by one. -/
theorem dequeueNode_length {q : List QNode} {r : QNode} {q2 : List QNode}
    (h : dequeueNode q = some (r, q2)) : q2.length + 1 = q.length := by
  unfold dequeueNode at h
  cases hq : q.getLast? with
  | none => rw [hq] at h; simp at h
  | some lastNode =>
    rw [hq] at h
    have hne : q ≠ [] := by
      intro he; rw [he] at hq; simp at hq
    have hdl : q.dropLast.length + 1 = q.length := by
      have h1 := List.length_dropLast q
      have h2 : 0 < q.length := List.length_pos.mpr hne
      omega
    simp only at h
    split at h
    · simp only [Option.some.injEq, Prod.mk.injEq] at h
      rw [← h.2]
      exact hdl
    · simp only [Option.some.injEq, Prod.mk.injEq] at h
      rw [← h.2, siftDownGo_length]
      simp only [List.length_set]
      exact hdl

/-- The inner `do ... while (updateQueue.length)` drain of
`RenderController.renderLoop` (src/h.ts lines 695-700), restricted to the
order in which queued components are popped: repeatedly `dequeueNode` until
the queue is empty, listing the popped entries in order. -/
def drainQueue (q : List QNode) : List QNode :=
  match h : dequeueNode q with
  | none => []
  | some (r, q2) => r :: drainQueue q2
termination_by q.length
decreasing_by
  have := dequeueNode_length h
  omega

/-! ### Scheduler: component records, re-render requests, state setters -/

/-- The scheduler-relevant fields of a `ComponentNode` (src/h.ts lines
352-360): `depth` (fixed at creation), `dirty` and `mounted`. -/
structure CompRec where
  depth : Nat
  dirty : Bool
  mounted : Bool
deriving DecidableEq, Repr

/-- Placeholder for out-of-range component lookups (never used by the
theorems, which quantify over in-range ids). -/
def defaultComp : CompRec := { depth := 0, dirty := false, mounted := false }

/-- Scheduler state: the component instances (indexed by id), the dirty-heap
`updateQueue`, whether a `Promise.resolve().then(renderLoop)` microtask is
pending, and how many component re-renders have been executed so far (only
`renderLoop` itself would increment this; it is observable evidence that an
operation did not re-render synchronously). -/
structure SchedState where
  comps : List CompRec
  updateQueue : List QNode
  drainScheduled : Bool
  rendersRun : Nat
deriving DecidableEq, Repr

/-- Read a component record by id. -/
def getComp (st : SchedState) (id : Nat) : CompRec :=
  st.comps.getD id defaultComp

/-- Translation of `RenderController.requestComponentRerender` (src/h.ts
lines 709-717): no-op when the node is already dirty or unmounted; otherwise
mark dirty, schedule the drain microtask if the queue was empty, and push the
node onto the heap. -/
def requestComponentRerender (st : SchedState) (id : Nat) : SchedState :=
  let node := getComp st id
  if node.dirty || !node.mounted then st
  else
    let st1 : SchedState := { st with comps := st.comps.set id { node with dirty := true } }
    let st2 : SchedState :=
      if st1.updateQueue.length = 0 then { st1 with drainScheduled := true } else st1
    { st2 with updateQueue := enqueueNode st2.updateQueue { id := id, depth := node.depth } }

/-- The argument of a `useState` setter: either a plain value or an updater
function (`typeof update === 'function'` in the source). -/
inductive Updater where
  | value : JValue → Updater
  | fn : (JValue → JValue) → Updater

/-- `typeof update === 'function' ? update(oldValue) : update`. -/
def applyUpdater : Updater → JValue → JValue
  | .value v, _ => v
  | .fn f, old => f old

/-- Translation of the setter closure created by `CreationHooks.useState`
(src/h.ts lines 823-830): derive the new value, and when it differs from the
stored one by strict inequality, store it and request a re-render of the
owning component.  Returns the cell's value after the call and the new
scheduler state. -/
def useStateSetterCall (st : SchedState) (cell : JValue) (owner : Nat)
    (update : Updater) : JValue × SchedState :=
  let oldValue := cell
  let newValue := applyUpdater update oldValue
  if oldValue ≠ newValue then (newValue, requestComponentRerender st owner)
  else (oldValue, st)

/-! ### Provider scheduling and context resolution -/

/-- The scheduler-relevant fields of a `ProviderNode` (src/h.ts lines
428-479): the identity of the stored descriptor (`config`), the stored
`props.value`, and the subscriber set (a `Set<ComponentNode>`, modelled as a
duplicate-free list of component ids in insertion order). -/
structure ProvRec where
  cfgId : Nat
  value : JValue
  subscribers : List Nat
deriving DecidableEq, Repr

/-- Translation of the scheduling part of `ProviderNode.update` (src/h.ts
lines 462-470): `if (config === this.config) return;` then, when the incoming
`props.value` differs by strict inequality from the stored one,
`this.subscribers.forEach(s => renderController.requestComponentRerender(s))`,
and finally the descriptor is stored.  The subsequent
`this.child.update(...)` reconciles the children; child reconciliation
re-renders nested components directly (`ComponentNode.update` calls
`rerender()` synchronously) and never calls `requestComponentRerender`, so it
does not touch the scheduler state modelled here. -/
def providerUpdateSched (p : ProvRec) (newCfgId : Nat) (newValue : JValue)
    (st : SchedState) : ProvRec × SchedState :=
  if newCfgId = p.cfgId then (p, st)
  else
    let st1 :=
      if newValue ≠ p.value then p.subscribers.foldl requestComponentRerender st
      else st
    ({ p with cfgId := newCfgId, value := newValue }, st1)

/-- Translation of `CreationHooks.useContext` (src/h.ts lines 850-861): look
the token id up in the component's captured provider mapping; when a provider
is found, subscribe and return its current value, otherwise return the
token's `defaultValue`.  Returns the value read and the provider's updated
subscriber set (`none` when no provider matched).  `Set.add` is modelled as
an append guarded on membership. -/
def useContextCreate (providers : Nat → Option ProvRec) (tokenId : Nat)
    (defaultValue : JValue) (ownerId : Nat) : JValue × Option ProvRec :=
  match providers tokenId with
  | some p =>
      (p.value,
       some { p with
                subscribers :=
                  if ownerId ∈ p.subscribers then p.subscribers
                  else p.subscribers ++ [ownerId] })
  | none => (defaultValue, none)

/-! ### Binary-heap invariant and correctness of `enqueueNode`/`dequeueNode` -/

/-- Placeholder entry for out-of-range queue reads (never actually read at an
in-range index). -/
def dfltQ : QNode := { id := 0, depth := 0 }

/-- Read entry `i` of the queue (with the irrelevant default fixed). -/
def qget (q : List QNode) (i : Nat) : QNode := q.getD i dfltQ

/-- The binary-heap invariant maintained by the scheduler's `updateQueue`:
every entry's depth is at least its parent's depth (parent of `i` is
`(i - 1) / 2`, matching `parentIndex = (index - 1) >> 1` in the source). -/
def IsHeap (q : List QNode) : Prop :=
  ∀ i : Nat, 0 < i → i < q.length → (qget q ((i - 1) / 2)).depth ≤ (qget q i).depth

theorem qget_eq_getElem {q : List QNode} {i : Nat} (h : i < q.length) :
    qget q i = q.get ⟨i, h⟩ := by
  simp [qget, List.getD_eq_getElem?_getD, List.getElem?_eq_getElem h]

theorem getD_eq_qget {q : List QNode} {i : Nat} (h : i < q.length) (d : QNode) :
    q.getD i d = qget q i := by
  simp [qget, List.getD_eq_getElem?_getD, List.getElem?_eq_getElem h]

theorem qget_set_self {q : List QNode} {i : Nat} {a : QNode} (h : i < q.length) :
    qget (q.set i a) i = a := by
  simp [qget, List.getD_eq_getElem?_getD, List.getElem?_set_self' , h]

theorem qget_set_ne {q : List QNode} {i j : Nat} {a : QNode} (h : i ≠ j) :
    qget (q.set i a) j = qget q j := by
  simp [qget, List.getD_eq_getElem?_getD, List.getElem?_set_ne h]

theorem qget_append_left {q : List QNode} {v : QNode} {i : Nat} (h : i < q.length) :
    qget (q ++ [v]) i = qget q i := by
  simp [qget, List.getD_eq_getElem?_getD, List.getElem?_append_left h]

theorem qget_mem {q : List QNode} {i : Nat} (h : i < q.length) : qget q i ∈ q := by
  rw [qget_eq_getElem h]
  exact List.get_mem q i h

/-- Counting form of in-place update: replacing position `i` (holding
`qget q i`) by `a` removes one occurrence of the old entry and adds one of
the new. -/
theorem count_set_qget (q : List QNode) (i : Nat) (a x : QNode) (h : i < q.length) :
    (q.set i a).count x + (if qget q i = x then 1 else 0) =
      q.count x + (if a = x then 1 else 0) := by
  have hc := List.count_set a x q i h
  have hmem : (if qget q i = x then 1 else 0) ≤ q.count x := by
    split
    · rename_i he
      have : x ∈ q := he ▸ qget_mem h
      exact List.count_pos_iff_mem.mpr this
    · exact Nat.zero_le _
  have hg : q.get ⟨i, h⟩ = qget q i := (qget_eq_getElem h).symm
  rw [show q[i] = q.get ⟨i, h⟩ from rfl, hg] at hc
  simp only [beq_iff_eq] at hc
  omega

/-- Sift-up preserves the heap shape: if all parent links hold except around
the hole `H`, and the value `v` being inserted is a lower bound for the
hole's children, the result of `enqueueGo` is a heap. -/
theorem enqueueGo_isHeap (v : QNode) (q : List QNode) (H : Nat)
    (hH : H < q.length)
    (ha : ∀ i, 0 < i → i < q.length → i ≠ H → (i - 1) / 2 ≠ H →
      (qget q ((i - 1) / 2)).depth ≤ (qget q i).depth)
    (hb : ∀ c, 0 < c → c < q.length → (c - 1) / 2 = H → 0 < H →
      (qget q ((H - 1) / 2)).depth ≤ (qget q c).depth)
    (hc : ∀ c, 0 < c → c < q.length → (c - 1) / 2 = H →
      v.depth ≤ (qget q c).depth) :
    IsHeap (enqueueGo v q H) := by
  rw [enqueueGo]
  split
  · rename_i hpos
    dsimp only
    split
    · rename_i hgt
      -- recursive case: copy the parent down into the hole, hole moves up
      rw [getD_eq_qget (Nat.lt_trans (by omega) hH)] at hgt
      set P := (H - 1) / 2 with hP
      have hPH : P < H := by omega
      have hPlen : P < q.length := Nat.lt_trans hPH hH
      rw [getD_eq_qget hPlen]
      apply enqueueGo_isHeap v (q.set H (qget q P)) P
        (by simpa using hPlen)
      · intro i hi0 hilen hiP hparP
        rw [List.length_set] at hilen
        rcases eq_or_ne i H with hiH | hiH
        · -- the old hole now holds the parent's value; its parent is P
          subst hiH
          have : (i - 1) / 2 = P := hP.symm
          exact absurd this hparP
        · rcases eq_or_ne ((i - 1) / 2) H with hpH | hpH
          · -- children of the old hole now see the parent's value above them
            rw [qget_set_ne hiH.symm, hpH, qget_set_self hH]
            exact hb i hi0 hilen hpH hpos
          · rw [qget_set_ne hiH.symm, qget_set_ne (Ne.symm hpH)]
            exact ha i hi0 hilen hiH hpH
      · intro c hc0 hclen hcP hPpos
        rw [List.length_set] at hclen
        have hcH : c > P := by omega
        have hparP : (P - 1) / 2 < P := by omega
        have hparPH : (P - 1) / 2 ≠ H := by omega
        rw [qget_set_ne (Ne.symm hparPH)]
        rcases eq_or_ne c H with hcH' | hcH'
        · subst hcH'
          rw [qget_set_self hH]
          exact ha P hPpos hPlen (by omega) (by omega)
        · rw [qget_set_ne (Ne.symm hcH')]
          calc (qget q ((P - 1) / 2)).depth
              ≤ (qget q P).depth := ha P hPpos hPlen (by omega) (by omega)
            _ ≤ (qget q c).depth := by
                rw [← hcP]
                exact ha c hc0 hclen hcH' (by omega)
      · intro c hc0 hclen hcP
        rw [List.length_set] at hclen
        rcases eq_or_ne c H with hcH' | hcH'
        · subst hcH'
          rw [qget_set_self hH]
          exact Nat.le_of_lt hgt
        · rw [qget_set_ne (Ne.symm hcH')]
          calc v.depth ≤ (qget q P).depth := Nat.le_of_lt hgt
            _ ≤ (qget q c).depth := by
                rw [← hcP]
                exact ha c hc0 hclen hcH' (by omega)
    · rename_i hle
      -- stop: the parent is no deeper than `v`; write `v` into the hole
      rw [getD_eq_qget (Nat.lt_trans (by omega) hH)] at hle
      intro i hi0 hilen
      rw [List.length_set] at hilen
      rcases eq_or_ne i H with hiH | hiH
      · subst hiH
        have hpar : (i - 1) / 2 ≠ i := by omega
        rw [qget_set_self hH, qget_set_ne (Ne.symm hpar)]
        omega
      · rcases eq_or_ne ((i - 1) / 2) H with hpH | hpH
        · rw [qget_set_ne hiH.symm, hpH, qget_set_self hH]
          exact hc i hi0 hilen hpH
        · rw [qget_set_ne hiH.symm, qget_set_ne (Ne.symm hpH)]
          exact ha i hi0 hilen hiH hpH
  · rename_i hpos
    -- H = 0: write `v` at the root
    have hH0 : H = 0 := by omega
    subst hH0
    intro i hi0 hilen
    rw [List.length_set] at hilen
    have hiH : i ≠ 0 := by omega
    rcases eq_or_ne ((i - 1) / 2) 0 with hpH | hpH
    · rw [qget_set_ne hiH.symm, hpH, qget_set_self hH]
      exact hc i hi0 hilen hpH
    · rw [qget_set_ne hiH.symm, qget_set_ne (Ne.symm hpH)]
      exact ha i hi0 hilen hiH hpH
termination_by H
decreasing_by omega

/-- Sift-up is an in-place permutation: the result counts like writing `v`
straight into the hole. -/
theorem enqueueGo_count (v : QNode) (q : List QNode) (H : Nat)
    (hH : H < q.length) (x : QNode) :
    (enqueueGo v q H).count x = (q.set H v).count x := by
  rw [enqueueGo]
  split
  · rename_i hpos
    dsimp only
    split
    · rename_i hgt
      set P := (H - 1) / 2 with hP
      have hPH : P < H := by omega
      have hPlen : P < q.length := Nat.lt_trans hPH hH
      rw [getD_eq_qget hPlen]
      rw [enqueueGo_count v (q.set H (qget q P)) P (by simpa using hPlen) x]
      have h1 := count_set_qget q H (qget q P) x hH
      have h2 := count_set_qget (q.set H (qget q P)) P v x (by simpa using hPlen)
      have h3 := count_set_qget q H v x hH
      rw [qget_set_ne (by omega : H ≠ P)] at h2
      omega
    · rfl
  · rfl
termination_by H
decreasing_by omega

/-- `enqueueNode` preserves the heap invariant. -/
theorem enqueueNode_isHeap {q : List QNode} (v : QNode) (hq : IsHeap q) :
    IsHeap (enqueueNode q v) := by
  apply enqueueGo_isHeap v (q ++ [v]) q.length (by simp)
  · intro i hi0 hilen hiH _
    rw [List.length_append, List.length_singleton] at hilen
    have hi : i < q.length := by omega
    rw [qget_append_left hi, qget_append_left (by omega : (i - 1) / 2 < q.length)]
    exact hq i hi0 hi
  · intro c _ hclen hcH _
    rw [List.length_append, List.length_singleton] at hclen
    omega
  · intro c _ hclen hcH
    rw [List.length_append, List.length_singleton] at hclen
    omega

/-- `enqueueNode` adds exactly one occurrence of the new entry. -/
theorem enqueueNode_count (q : List QNode) (v : QNode) (x : QNode) :
    (enqueueNode q v).count x = q.count x + (if v = x then 1 else 0) := by
  rw [enqueueNode, enqueueGo_count v (q ++ [v]) q.length (by simp) x]
  have h := count_set_qget (q ++ [v]) q.length v x (by simp)
  have hg : qget (q ++ [v]) q.length = v := by
    simp [qget, List.getD_eq_getElem?_getD, List.getElem?_append_right (Nat.le_refl _)]
  rw [hg] at h
  have hcount : (q ++ [v]).count x = q.count x + (if v = x then 1 else 0) := by
    rcases eq_or_ne v x with hvx | hvx
    · subst hvx
      simp [List.count_append]
    · simp [List.count_append, List.count_singleton, hvx]
  omega

/-- Writing `v` into a hole `H` yields a heap provided all links away from
the hole hold, `v` dominates the hole's parent and is dominated by the
hole's children. -/
theorem set_hole_isHeap (q : List QNode) (H : Nat) (v : QNode) (hH : H < q.length)
    (hA : ∀ i, 0 < i → i < q.length → i ≠ H → (i - 1) / 2 ≠ H →
      (qget q ((i - 1) / 2)).depth ≤ (qget q i).depth)
    (hparent : 0 < H → (qget q ((H - 1) / 2)).depth ≤ v.depth)
    (hchild : ∀ c, 0 < c → c < q.length → (c - 1) / 2 = H →
      v.depth ≤ (qget q c).depth) :
    IsHeap (q.set H v) := by
  intro i hi0 hilen
  rw [List.length_set] at hilen
  rcases eq_or_ne i H with rfl | hiH
  · have hpar : (i - 1) / 2 ≠ i := by omega
    rw [qget_set_self hH, qget_set_ne (Ne.symm hpar)]
    exact hparent hi0
  · rcases eq_or_ne ((i - 1) / 2) H with hpH | hpH
    · rw [qget_set_ne (Ne.symm hiH), hpH, qget_set_self hH]
      exact hchild i hi0 hilen hpH
    · rw [qget_set_ne (Ne.symm hiH), qget_set_ne (Ne.symm hpH)]
      exact hA i hi0 hilen hiH hpH

/-- Sift-down preserves the heap shape: if all links away from the hole `H`
hold, the hole's parent dominates both the value `v` being placed and the
hole's children, then `siftDownGo` produces a heap. -/
theorem siftDownGo_isHeap (v : QNode) (q : List QNode) (H : Nat)
    (hH : H < q.length)
    (hA : ∀ i, 0 < i → i < q.length → i ≠ H → (i - 1) / 2 ≠ H →
      (qget q ((i - 1) / 2)).depth ≤ (qget q i).depth)
    (hB : 0 < H → (qget q ((H - 1) / 2)).depth ≤ v.depth)
    (hB2 : ∀ c, 0 < c → c < q.length → (c - 1) / 2 = H → 0 < H →
      (qget q ((H - 1) / 2)).depth ≤ (qget q c).depth) :
    IsHeap (siftDownGo v q H) := by
  rw [siftDownGo]
  dsimp only
  split
  · rename_i hR
    have hL : 2 * H + 1 < q.length := by omega
    have hgl : q.getD (2 * H + 1) v = qget q (2 * H + 1) := getD_eq_qget hL v
    have hgr : q.getD (2 * H + 1 + 1) v = qget q (2 * H + 1 + 1) := getD_eq_qget hR v
    by_cases hlr : (q.getD (2 * H + 1) v).depth < (q.getD (2 * H + 1 + 1) v).depth
    · rw [if_pos hlr]
      dsimp only
      split
      · rename_i hstop
        apply set_hole_isHeap q H v hH hA hB
        intro c hc0 hclen hcP
        rw [hgl] at hstop
        have : c = 2 * H + 1 ∨ c = 2 * H + 2 := by omega
        rcases this with rfl | rfl
        · exact hstop
        · rw [hgl, hgr] at hlr
          calc v.depth ≤ (qget q (2 * H + 1)).depth := hstop
            _ ≤ (qget q (2 * H + 1 + 1)).depth := Nat.le_of_lt hlr
      · rename_i hstop
        rw [hgl] at hstop ⊢
        rw [hgl, hgr] at hlr
        apply siftDownGo_isHeap v (q.set H (qget q (2 * H + 1))) (2 * H + 1)
          (by simpa using hL)
        · intro i hi0 hilen hiL hpL
          rw [List.length_set] at hilen
          rcases eq_or_ne i H with rfl | hiH
          · -- the old hole now holds the left child's value
            rw [qget_set_self hH, qget_set_ne (by omega : i ≠ (i - 1) / 2)]
            exact hB2 (2 * i + 1) (by omega) hL (by omega) hi0
          · rcases eq_or_ne ((i - 1) / 2) H with hpH | hpH
            · -- `i` is the sibling `2H+2` of the new hole
              have : i = 2 * H + 2 := by omega
              subst this
              rw [hpH, qget_set_self hH, qget_set_ne (by omega : H ≠ 2 * H + 2)]
              exact Nat.le_of_lt hlr
            · rw [qget_set_ne (Ne.symm hiH), qget_set_ne (Ne.symm hpH)]
              exact hA i hi0 hilen hiH hpH
        · intro _
          rw [show (2 * H + 1 - 1) / 2 = H by omega, qget_set_self hH]
          omega
        · intro c hc0 hclen hcP _
          rw [List.length_set] at hclen
          rw [show (2 * H + 1 - 1) / 2 = H by omega, qget_set_self hH,
            qget_set_ne (by omega : H ≠ c)]
          have hac := hA c hc0 hclen (by omega) (by omega)
          rw [hcP] at hac
          exact hac
    · rw [if_neg hlr]
      dsimp only
      split
      · rename_i hstop
        apply set_hole_isHeap q H v hH hA hB
        intro c hc0 hclen hcP
        rw [hgr] at hstop
        have : c = 2 * H + 1 ∨ c = 2 * H + 2 := by omega
        rcases this with rfl | rfl
        · rw [hgl, hgr] at hlr
          calc v.depth ≤ (qget q (2 * H + 1 + 1)).depth := hstop
            _ ≤ (qget q (2 * H + 1)).depth := Nat.le_of_not_lt hlr
        · exact hstop
      · rename_i hstop
        rw [hgr] at hstop ⊢
        rw [hgl, hgr] at hlr
        apply siftDownGo_isHeap v (q.set H (qget q (2 * H + 1 + 1))) (2 * H + 1 + 1)
          (by simpa using hR)
        · intro i hi0 hilen hiR hpR
          rw [List.length_set] at hilen
          rcases eq_or_ne i H with rfl | hiH
          · rw [qget_set_self hH, qget_set_ne (by omega : i ≠ (i - 1) / 2)]
            exact hB2 (2 * i + 1 + 1) (by omega) hR (by omega) hi0
          · rcases eq_or_ne ((i - 1) / 2) H with hpH | hpH
            · have : i = 2 * H + 1 := by omega
              subst this
              rw [hpH, qget_set_self hH, qget_set_ne (by omega : H ≠ 2 * H + 1)]
              exact Nat.le_of_not_lt hlr
            · rw [qget_set_ne (Ne.symm hiH), qget_set_ne (Ne.symm hpH)]
              exact hA i hi0 hilen hiH hpH
        · intro _
          rw [show (2 * H + 1 + 1 - 1) / 2 = H by omega, qget_set_self hH]
          omega
        · intro c hc0 hclen hcP _
          rw [List.length_set] at hclen
          rw [show (2 * H + 1 + 1 - 1) / 2 = H by omega, qget_set_self hH,
            qget_set_ne (by omega : H ≠ c)]
          have hac := hA c hc0 hclen (by omega) (by omega)
          rw [hcP] at hac
          exact hac
  · rename_i hR
    split
    · rename_i hL
      have hgl : q.getD (2 * H + 1) v = qget q (2 * H + 1) := getD_eq_qget hL v
      split
      · rename_i hswap
        rw [hgl] at hswap
        -- swap `v` with the single left child
        intro i hi0 hilen
        rw [List.length_set, List.length_set] at hilen
        rcases eq_or_ne i (2 * H + 1) with rfl | hiL
        · rw [qget_set_self (by simpa using hL),
            show (2 * H + 1 - 1) / 2 = H by omega,
            qget_set_ne (by omega : 2 * H + 1 ≠ H), qget_set_self hH, hgl]
          exact Nat.le_of_lt hswap
        · rcases eq_or_ne i H with rfl | hiH
          · have hpar : (i - 1) / 2 ≠ i := by omega
            rw [qget_set_ne (Ne.symm hiL), qget_set_self hH,
              qget_set_ne (by omega : 2 * i + 1 ≠ (i - 1) / 2),
              qget_set_ne (Ne.symm hpar), hgl]
            exact hB2 (2 * i + 1) (by omega) hL (by omega) hi0
          · rcases eq_or_ne ((i - 1) / 2) H with hpH | hpH
            · exfalso
              omega
            · rcases eq_or_ne ((i - 1) / 2) (2 * H + 1) with hpL | hpL
              · exfalso
                omega
              · rw [qget_set_ne (Ne.symm hiL), qget_set_ne (Ne.symm hiH),
                  qget_set_ne (Ne.symm hpL), qget_set_ne (Ne.symm hpH)]
                exact hA i hi0 hilen hiH hpH
      · rename_i hswap
        rw [hgl] at hswap
        apply set_hole_isHeap q H v hH hA hB
        intro c hc0 hclen hcP
        have : c = 2 * H + 1 := by omega
        subst this
        exact Nat.le_of_not_lt hswap
    · rename_i hL
      apply set_hole_isHeap q H v hH hA hB
      intro c hc0 hclen hcP
      exfalso
      omega
termination_by q.length - H
decreasing_by
  all_goals simp only [List.length_set]
  all_goals omega

/-- Sift-down is an in-place permutation: the result counts like writing `v`
straight into the hole. -/
theorem siftDownGo_count (v : QNode) (q : List QNode) (H : Nat)
    (hH : H < q.length) (x : QNode) :
    (siftDownGo v q H).count x = (q.set H v).count x := by
  rw [siftDownGo]
  dsimp only
  split
  · rename_i hR
    have hL : 2 * H + 1 < q.length := by omega
    by_cases hlr : (q.getD (2 * H + 1) v).depth < (q.getD (2 * H + 1 + 1) v).depth
    · rw [if_pos hlr]
      dsimp only
      split
      · rfl
      · rw [siftDownGo_count v (q.set H (q.getD (2 * H + 1) v)) (2 * H + 1)
          (by simpa using hL) x]
        rw [getD_eq_qget hL]
        have h1 := count_set_qget q H (qget q (2 * H + 1)) x hH
        have h2 := count_set_qget (q.set H (qget q (2 * H + 1))) (2 * H + 1) v x
          (by simpa using hL)
        have h3 := count_set_qget q H v x hH
        rw [qget_set_ne (by omega : H ≠ 2 * H + 1)] at h2
        omega
    · rw [if_neg hlr]
      dsimp only
      split
      · rfl
      · rw [siftDownGo_count v (q.set H (q.getD (2 * H + 1 + 1) v)) (2 * H + 1 + 1)
          (by simpa using hR) x]
        rw [getD_eq_qget hR]
        have h1 := count_set_qget q H (qget q (2 * H + 1 + 1)) x hH
        have h2 := count_set_qget (q.set H (qget q (2 * H + 1 + 1))) (2 * H + 1 + 1) v x
          (by simpa using hR)
        have h3 := count_set_qget q H v x hH
        rw [qget_set_ne (by omega : H ≠ 2 * H + 1 + 1)] at h2
        omega
  · split
    · rename_i hL
      split
      · rw [getD_eq_qget hL]
        have h1 := count_set_qget q H (qget q (2 * H + 1)) x hH
        have h2 := count_set_qget (q.set H (qget q (2 * H + 1))) (2 * H + 1)
          v x (by simpa using hL)
        have h3 := count_set_qget q H v x hH
        rw [qget_set_ne (by omega : H ≠ 2 * H + 1)] at h2
        omega
      · rfl
    · rfl
termination_by q.length - H
decreasing_by
  all_goals simp only [List.length_set]
  all_goals omega

/-- In a heap, the root is no deeper than any entry. -/
theorem isHeap_qget_zero_le (q : List QNode) (hq : IsHeap q) :
    ∀ i, i < q.length → (qget q 0).depth ≤ (qget q i).depth := by
  intro i
  induction i using Nat.strong_induction_on with
  | _ i ih =>
    intro hilen
    rcases Nat.eq_zero_or_pos i with rfl | hi0
    · exact Nat.le_refl _
    · exact Nat.le_trans (ih ((i - 1) / 2) (by omega) (by omega)) (hq i hi0 hilen)

theorem dequeueNode_eq_none {q : List QNode} (h : dequeueNode q = none) : q = [] := by
  unfold dequeueNode at h
  cases hq : q.getLast? with
  | none => exact List.getLast?_eq_none_iff.mp hq
  | some lastNode =>
    rw [hq] at h
    dsimp only at h
    split at h <;> simp at h

/-- Dequeueing removes exactly one occurrence of the returned entry. -/
theorem dequeueNode_count {q : List QNode} {r : QNode} {q2 : List QNode}
    (h : dequeueNode q = some (r, q2)) (x : QNode) :
    q.count x = q2.count x + (if r = x then 1 else 0) := by
  unfold dequeueNode at h
  cases hq : q.getLast? with
  | none => rw [hq] at h; simp at h
  | some lastNode =>
    rw [hq] at h
    have happ : q.dropLast ++ [lastNode] = q := List.dropLast_append_getLast? lastNode hq
    have hcq : q.count x = q.dropLast.count x + (if lastNode = x then 1 else 0) := by
      conv_lhs => rw [← happ]
      rcases eq_or_ne lastNode x with rfl | hvx
      · simp [List.count_append]
      · simp [List.count_append, List.count_singleton, hvx]
    dsimp only at h
    split at h
    · rename_i hq1
      simp only [Option.some.injEq, Prod.mk.injEq] at h
      rw [← h.1, ← h.2]
      have : q.dropLast.count x = 0 := by
        rw [List.length_eq_zero.mp hq1]
        rfl
      omega
    · rename_i hq1
      simp only [Option.some.injEq, Prod.mk.injEq] at h
      have h0 : 0 < q.dropLast.length := by omega
      rw [← h.2, siftDownGo_count lastNode _ 0 (by simpa using h0) x]
      rw [List.set_set]
      have hset := count_set_qget q.dropLast 0 lastNode x h0
      rw [← h.1, getD_eq_qget h0]
      omega

/-- Dequeueing preserves the heap invariant. -/
theorem dequeueNode_isHeap {q : List QNode} {r : QNode} {q2 : List QNode}
    (hq : IsHeap q) (h : dequeueNode q = some (r, q2)) : IsHeap q2 := by
  unfold dequeueNode at h
  cases hql : q.getLast? with
  | none => rw [hql] at h; simp at h
  | some lastNode =>
    rw [hql] at h
    dsimp only at h
    split at h
    · rename_i hq1
      simp only [Option.some.injEq, Prod.mk.injEq] at h
      rw [← h.2, List.length_eq_zero.mp hq1]
      intro i hi0 hilen
      simp at hilen
    · rename_i hq1
      simp only [Option.some.injEq, Prod.mk.injEq] at h
      have h0 : 0 < q.dropLast.length := by omega
      have hdl : q.dropLast.length + 1 = q.length := by
        have h1 := List.length_dropLast q
        have h2 : q ≠ [] := by
          intro he; rw [he] at hql; simp at hql
        have h3 : 0 < q.length := List.length_pos.mpr h2
        omega
      have hget : ∀ j, j < q.dropLast.length → qget q.dropLast j = qget q j := by
        intro j hj
        have hjq : j < q.length := by omega
        simp [qget, List.getD_eq_getElem?_getD, List.getElem?_dropLast,
          show j < q.length - 1 by omega, List.getElem?_eq_getElem hjq]
      rw [← h.2]
      apply siftDownGo_isHeap lastNode _ 0 (by simpa using h0)
      · intro i hi0 hilen hiH hpH
        rw [List.length_set] at hilen
        rw [qget_set_ne (Ne.symm hiH), qget_set_ne (Ne.symm hpH), hget i hilen,
          hget ((i - 1) / 2) (by omega)]
        exact hq i hi0 (by omega)
      · omega
      · intro c _ _ _ hc
        omega


/-- The dequeued entry is the heap's root, hence minimal in depth. -/
theorem dequeueNode_min {q : List QNode} {r : QNode} {q2 : List QNode}
    (hq : IsHeap q) (h : dequeueNode q = some (r, q2)) :
    ∀ x ∈ q, r.depth ≤ x.depth := by
  have hroot : r = qget q 0 := by
    unfold dequeueNode at h
    cases hql : q.getLast? with
    | none => rw [hql] at h; simp at h
    | some lastNode =>
      rw [hql] at h
      dsimp only at h
      have hne : q ≠ [] := by intro he; rw [he] at hql; simp at hql
      have hpos : 0 < q.length := List.length_pos.mpr hne
      have happ : q.dropLast ++ [lastNode] = q := List.dropLast_append_getLast? lastNode hql
      have hdl : q.dropLast.length + 1 = q.length := by
        have h1 := List.length_dropLast q
        omega
      split at h
      · rename_i hq1
        simp only [Option.some.injEq, Prod.mk.injEq] at h
        rw [← h.1, ← happ, List.length_eq_zero.mp hq1]
        rfl
      · rename_i hq1
        have h0 : 0 < q.dropLast.length := by omega
        simp only [Option.some.injEq, Prod.mk.injEq] at h
        rw [← h.1, getD_eq_qget h0]
        simp [qget, List.getD_eq_getElem?_getD, List.getElem?_dropLast,
          show (0 : Nat) < q.length - 1 by omega, List.getElem?_eq_getElem hpos]
  intro x hx
  obtain ⟨i, hi⟩ := List.mem_iff_get.mp hx
  rw [hroot, ← hi]
  have hle := isHeap_qget_zero_le q hq i.1 i.2
  rwa [qget_eq_getElem i.2] at hle

/-- Draining pops every queued entry exactly once. -/
theorem drainQueue_count (q : List QNode) (x : QNode) :
    (drainQueue q).count x = q.count x := by
  rw [drainQueue]
  split
  · rename_i heq
    rw [dequeueNode_eq_none heq]
  · rename_i r q2 heq
    have hrec := drainQueue_count q2 x
    have hdc := dequeueNode_count heq x
    rw [List.count_cons, hrec]
    simp only [beq_iff_eq]
    omega
termination_by q.length
decreasing_by
  rename_i heq2
  have := dequeueNode_length heq2
  omega

/-- The drained sequence is a permutation of the queue. -/
theorem drainQueue_perm (q : List QNode) : (drainQueue q).Perm q :=
  List.perm_iff_count.mpr fun x => by rw [drainQueue_count]

/-- Draining a heap yields the entries in non-decreasing depth order. -/
theorem drainQueue_sorted (q : List QNode) (hq : IsHeap q) :
    (drainQueue q).Sorted (fun a b => a.depth ≤ b.depth) := by
  rw [drainQueue]
  split
  · exact List.sorted_nil
  · rename_i r q2 heq
    have hrec := drainQueue_sorted q2 (dequeueNode_isHeap hq heq)
    rw [List.sorted_cons]
    constructor
    · intro b hb
      have hb2 : b ∈ q2 := (drainQueue_perm q2).mem_iff.mp hb
      have hbq : b ∈ q := by
        have hc := dequeueNode_count heq b
        have h1 : 0 < q2.count b := List.count_pos_iff.mpr hb2
        have h2 : 0 < q.count b := by omega
        exact List.count_pos_iff.mp h2
      exact dequeueNode_min hq heq b hbq
    · exact hrec
termination_by q.length
decreasing_by
  rename_i heq2
  have := dequeueNode_length heq2
  omega

theorem isHeap_nil : IsHeap [] := by
  intro i _ hilen
  simp at hilen

/-- Enqueueing a batch of nodes into a heap yields a heap. -/
theorem foldl_enqueueNode_isHeap (l : List QNode) :
    ∀ q : List QNode, IsHeap q → IsHeap (l.foldl enqueueNode q) := by
  induction l with
  | nil => exact fun _ hq => hq
  | cons v l ih => exact fun _ hq => ih _ (enqueueNode_isHeap v hq)

/-- Enqueueing a batch adds exactly its entries. -/
theorem foldl_enqueueNode_count (l : List QNode) :
    ∀ (q : List QNode) (x : QNode),
      (l.foldl enqueueNode q).count x = q.count x + l.count x := by
  induction l with
  | nil => intro q x; simp
  | cons v l ih =>
    intro q x
    rw [List.foldl_cons, ih, enqueueNode_count, List.count_cons]
    simp only [beq_iff_eq]
    omega

/-! ### Host operations and element attribute reconciliation (src/h.ts 96-248) -/

/-- Observable host-platform operations (DOM mutations) plus effect-cleanup
events, recorded as a trace. -/
inductive HOp where
  | createElement : String → Nat → HOp
  | createText : Nat → String → HOp
  | createMarker : Nat → HOp
  | setProp : Nat → String → JValue → HOp
  | setText : Nat → String → HOp
  | removeNode : Nat → HOp
  | replaceNode : Nat → Nat → HOp
  | insertAfter : Nat → Nat → HOp
  | insertBefore : Nat → Nat → HOp
  | mountChildren : Nat → JValue → HOp
  | unmountChildren : HOp
  | updateChildren : Nat → JValue → HOp
  | refAttach : Nat → RefV → HOp
  | refDetach : RefV → HOp
  | runCleanup : Nat → HOp
  | runEffectBody : Nat → HOp
deriving DecidableEq, Repr

/-- The runtime error raised by the source when it is executed.
`referenceError` corresponds to `node[name] = null` in
`ElementNode.removeAttribute` (src/h.ts line 209): unlike `addAttribute` and
`updateAttribute`, that method never destructures `const { node } = this`, so
the bare identifier `node` is unresolvable and removing a plain property
throws a `ReferenceError`. -/
inductive JsError where
  | referenceError : JsError
deriving DecidableEq, Repr

/-- Stable insertion of an entry into a name-sorted attribute list (an
element with name `≤` the inserted one stays in front of it). -/
def insertByName (e : String × JValue) : List (String × JValue) → List (String × JValue)
  | [] => [e]
  | f :: rest => if f.1 ≤ e.1 then f :: insertByName e rest else e :: f :: rest

/-- Model of `Array.prototype.sort(compareAttributes)` (src/h.ts lines
526-530): a stable sort by attribute name (JavaScript's sort is stable and
the comparator orders by name only). -/
def sortByName (l : List (String × JValue)) : List (String × JValue) :=
  l.foldl (fun acc e => insertByName e acc) []

/-- Translation of `getAttributes` (src/h.ts lines 96-100): `undefined` for a
missing bag, otherwise the entries with defined values sorted by name, or
`undefined` when none remain. -/
def getAttributes (props : Option (List (String × JValue))) :
    Option (List (String × JValue)) :=
  match props with
  | none => none
  | some props =>
    let attributes := sortByName (props.filter (fun e => e.2 ≠ JValue.undef))
    if attributes.length > 0 then some attributes else none

/-- Convert a property value supplied as `ref` to the ref model (the source
calls it as a function or assigns to its `.current`; any other value would be
a type error there). -/
def refOfJValue : JValue → RefV
  | JValue.fnV i => RefV.fn i
  | JValue.boxV i => RefV.box i
  | _ => RefV.box 0

/-- The attribute-related state of an `ElementNode`: the identity of the
stored `config.props` object, the stored sorted attribute list
(`this.attributes`), and whether mounted children exist (`this.children`,
kept abstract: the claims about the children algorithm target
`FragmentNode`). -/
structure ElemAttrs where
  propsId : Nat
  attributes : Option (List (String × JValue))
  hasChildren : Bool
deriving DecidableEq, Repr

/-- Translation of `ElementNode.addAttribute` (src/h.ts lines 170-186):
`children` mounts the nested child list (abstracted to one event), `ref`
attaches the host node to the ref, anything else is assigned as a host-node
property. -/
def addAttribute (st : ElemAttrs) (nid : Nat) (name : String) (value : JValue) :
    ElemAttrs × List HOp :=
  if name = "children" then
    ({ st with hasChildren := true }, [HOp.mountChildren nid value])
  else if name = "ref" then
    (st, [HOp.refAttach nid (refOfJValue value)])
  else
    (st, [HOp.setProp nid name value])

/-- Translation of `ElementNode.removeAttribute` (src/h.ts lines 194-211).
The `children` branch unmounts the mounted children (no-op when there are
none); the `ref` branch detaches; the final branch executes
`node[name] = null` where `node` is NOT in scope (the method lacks the
`const { node } = this` destructuring present in the sibling methods), so it
throws a `ReferenceError`. -/
def removeAttribute (st : ElemAttrs) (name : String) (oldValue : JValue) :
    Except JsError (ElemAttrs × List HOp) :=
  if name = "children" then
    if st.hasChildren then
      Except.ok ({ st with hasChildren := false }, [HOp.unmountChildren])
    else Except.ok (st, [])
  else if name = "ref" then
    Except.ok (st, [HOp.refDetach (refOfJValue oldValue)])
  else
    Except.error JsError.referenceError

/-- Translation of `ElementNode.updateAttribute` (src/h.ts lines 221-247):
`children` re-reconciles the child list positionally (abstracted to one
event; the algorithm is the one verified on `FragmentNode`), `ref` is
detach-then-attach, anything else is assigned as a host-node property. -/
def updateAttribute (st : ElemAttrs) (nid : Nat) (name : String)
    (oldValue newValue : JValue) : Except JsError (ElemAttrs × List HOp) :=
  if name = "children" then
    Except.ok (st, [HOp.updateChildren nid newValue])
  else if name = "ref" then
    match removeAttribute st "ref" oldValue with
    | Except.error e => Except.error e
    | Except.ok (st1, ops1) =>
      let (st2, ops2) := addAttribute st1 nid "ref" newValue
      Except.ok (st2, ops1 ++ ops2)
  else
    Except.ok (st, [HOp.setProp nid name newValue])

/-- Translation of `ElementNode.addAllAttributes` (src/h.ts lines 188-192):
store the computed attribute list, then add each entry in order. -/
def addAllAttributes (st : ElemAttrs) (nid : Nat)
    (props : Option (List (String × JValue))) : ElemAttrs × List HOp :=
  let attributes := getAttributes props
  let st1 := { st with attributes := attributes }
  match attributes with
  | none => (st1, [])
  | some attrs =>
    attrs.foldl
      (fun acc nv =>
        let r := addAttribute acc.1 nid nv.1 nv.2
        (r.1, acc.2 ++ r.2))
      (st1, ([] : List HOp))

/-- The `attributes.forEach(([name, value]) => this.removeAttribute(...))`
loop of `removeAllAttributes`, propagating the first raised error. -/
def removeAttrsList (st : ElemAttrs) :
    List (String × JValue) → Except JsError (ElemAttrs × List HOp)
  | [] => Except.ok (st, [])
  | (name, value) :: rest =>
    match removeAttribute st name value with
    | Except.error e => Except.error e
    | Except.ok (st1, ops1) =>
      match removeAttrsList st1 rest with
      | Except.error e => Except.error e
      | Except.ok (st2, ops2) => Except.ok (st2, ops1 ++ ops2)

/-- Translation of `ElementNode.removeAllAttributes` (src/h.ts lines
213-219): no-op when no attributes are stored; otherwise clear the stored
list and remove each entry. -/
def removeAllAttributes (st : ElemAttrs) : Except JsError (ElemAttrs × List HOp) :=
  match st.attributes with
  | none => Except.ok (st, [])
  | some attrs => removeAttrsList { st with attributes := none } attrs

/-- The two-pointer merge loop of `ElementNode.update` (src/h.ts lines
141-166), over the two name-sorted lists: names only in the old list are
removed, names only in the new list are added, shared names are updated when
the values differ by strict inequality. -/
def mergeAttrs (st : ElemAttrs) (nid : Nat) :
    List (String × JValue) → List (String × JValue) →
    Except JsError (ElemAttrs × List HOp)
  | [], [] => Except.ok (st, [])
  | [], (n, nv) :: newRest =>
    let r := addAttribute st nid n nv
    match mergeAttrs r.1 nid [] newRest with
    | Except.error e => Except.error e
    | Except.ok (st2, ops2) => Except.ok (st2, r.2 ++ ops2)
  | (o, ov) :: oldRest, [] =>
    match removeAttribute st o ov with
    | Except.error e => Except.error e
    | Except.ok (st1, ops1) =>
      match mergeAttrs st1 nid oldRest [] with
      | Except.error e => Except.error e
      | Except.ok (st2, ops2) => Except.ok (st2, ops1 ++ ops2)
  | (o, ov) :: oldRest, (n, nv) :: newRest =>
    if o < n then
      match removeAttribute st o ov with
      | Except.error e => Except.error e
      | Except.ok (st1, ops1) =>
        match mergeAttrs st1 nid oldRest ((n, nv) :: newRest) with
        | Except.error e => Except.error e
        | Except.ok (st2, ops2) => Except.ok (st2, ops1 ++ ops2)
    else if o > n then
      let r := addAttribute st nid n nv
      match mergeAttrs r.1 nid ((o, ov) :: oldRest) newRest with
      | Except.error e => Except.error e
      | Except.ok (st2, ops2) => Except.ok (st2, r.2 ++ ops2)
    else
      if ov ≠ nv then
        match updateAttribute st nid n ov nv with
        | Except.error e => Except.error e
        | Except.ok (st1, ops1) =>
          match mergeAttrs st1 nid oldRest newRest with
          | Except.error e => Except.error e
          | Except.ok (st2, ops2) => Except.ok (st2, ops1 ++ ops2)
      else
        mergeAttrs st nid oldRest newRest
termination_by old new => old.length + new.length

/-- Translation of `ElementNode.update` (src/h.ts lines 128-168): short
circuit on reference-identical props; otherwise compute the new sorted
attribute list and remove all / add all / merge.  Faithful detail: in the
merge branch `this.attributes` is NOT reassigned (only
`removeAllAttributes`/`addAllAttributes` touch it), exactly as in the
source. -/
def elementUpdate (st : ElemAttrs) (nid : Nat) (newPropsId : Nat)
    (props : Option (List (String × JValue))) :
    Except JsError (ElemAttrs × List HOp) :=
  if newPropsId = st.propsId then Except.ok (st, [])
  else
    let st0 := { st with propsId := newPropsId }
    let oldAttributes := st0.attributes
    let newAttributes := getAttributes props
    match newAttributes with
    | none => removeAllAttributes st0
    | some newAttrs =>
      match oldAttributes with
      | none => Except.ok (addAllAttributes st0 nid props)
      | some oldAttrs => mergeAttrs st0 nid oldAttrs newAttrs

/-! ### The virtual-node tree: descriptors, mounted nodes, reconciliation
(src/h.ts lines 250-636) -/

/-- Descriptor (`NodeConfig`).  Reference identities of mutable JavaScript
objects are modelled by explicit numeric tokens: `elemC tag propsId entries`
carries the identity of its props object alongside its entries, `compC fn
propsId` carries the component function's identity and its props object's
identity (the function body lives in an environment, see `createVNode`), and
`provC cfgId tok propsId value children` carries the descriptor object's own
identity (compared by `ProviderNode.update`), the provider token, and the
props object's identity with its `value`/`children` contents. -/
inductive Cfg where
  | nullC : Cfg
  | textC : String → Cfg
  | elemC : String → Nat → Option (List (String × JValue)) → Cfg
  | compC : Nat → Nat → Cfg
  | provC : Nat → Nat → Nat → JValue → List Cfg → Cfg
  | fragC : List Cfg → Cfg
deriving Repr

/-- Mounted virtual node (`VNode`).  `fragN` holds either a placeholder
marker id (empty fragment) or its children; `compN fn propsId effects
mounted dirty child` is a `ComponentNode` (its hook slots other than effect
records are modelled in the hooks section); `provN` mirrors `ProviderNode`
with its child fragment. -/
inductive VN where
  | nullN : Nat → VN
  | textN : String → Nat → VN
  | elemN : String → ElemAttrs → Nat → VN
  | fragN : Option Nat → Option (List VN) → VN
  | compN : Nat → Nat → List EffectRec → Bool → Bool → VN → VN
  | provN : Nat → Nat → Nat → JValue → List Cfg → VN → VN
deriving Repr

/-- `State.runCleanupEffects` (src/h.ts lines 680-684), effect part:
`this.effects?.forEach(e => e.cleanup?.())` in registration order (context
unsubscription touches only the scheduler model). -/
def cleanupOps (effects : List EffectRec) : List HOp :=
  effects.filterMap (fun e => e.cleanup.map HOp.runCleanup)

mutual
/-- `getFirstNode()` of each node variant: the first host node currently
owned (used for sibling-relative insertion). -/
def vnFirstId : VN → Nat
  | VN.nullN nid => nid
  | VN.textN _ nid => nid
  | VN.elemN _ _ nid => nid
  | VN.fragN (some nid) _ => nid
  | VN.fragN none (some cs) => vnListFirstId cs
  | VN.fragN none none => 0
  | VN.compN _ _ _ _ _ child => vnFirstId child
  | VN.provN _ _ _ _ _ child => vnFirstId child

def vnListFirstId : List VN → Nat
  | [] => 0
  | c :: _ => vnFirstId c
end

mutual
/-- `getLastNode()` of each node variant. -/
def vnLastId : VN → Nat
  | VN.nullN nid => nid
  | VN.textN _ nid => nid
  | VN.elemN _ _ nid => nid
  | VN.fragN (some nid) _ => nid
  | VN.fragN none (some cs) => vnListLastId cs
  | VN.fragN none none => 0
  | VN.compN _ _ _ _ _ child => vnLastId child
  | VN.provN _ _ _ _ _ child => vnLastId child

def vnListLastId : List VN → Nat
  | [] => 0
  | [c] => vnLastId c
  | _ :: c :: cs => vnListLastId (c :: cs)
end

mutual
/-- `unmount()` of each node variant as a host-operation trace:
single-node variants remove their host node (`SingleNodeVNode.unmount`,
which `ElementNode` inherits unchanged); an empty fragment removes its
marker, a non-empty one unmounts each child; a component first runs its
effect cleanups (`ComponentNode.unmount` calls `cleanup()` before
`child.unmount()`), then unmounts its child; a provider unmounts its child
fragment. -/
def unmountOps : VN → List HOp
  | VN.nullN nid => [HOp.removeNode nid]
  | VN.textN _ nid => [HOp.removeNode nid]
  | VN.elemN _ _ nid => [HOp.removeNode nid]
  | VN.fragN (some nid) _ => [HOp.removeNode nid]
  | VN.fragN none (some cs) => unmountListOps cs
  | VN.fragN none none => []
  | VN.compN _ _ effects _ _ child => cleanupOps effects ++ unmountOps child
  | VN.provN _ _ _ _ _ child => unmountOps child

def unmountListOps : List VN → List HOp
  | [] => []
  | c :: cs => unmountOps c ++ unmountListOps cs
end

mutual
/-- `replaceWith(node)` of each node variant as a host-operation trace
(`r` is the id of the replacement host node): single-node variants replace
their host node; `ElementNode.replaceWith` first unmounts its mounted
children (abstract event), a non-empty fragment replaces its first child and
unmounts the rest, a component runs its effect cleanups first
(`ComponentNode.replaceWith` calls `cleanup()`), a provider delegates to its
child. -/
def replaceWithOps : VN → Nat → List HOp
  | VN.nullN nid, r => [HOp.replaceNode nid r]
  | VN.textN _ nid, r => [HOp.replaceNode nid r]
  | VN.elemN _ st nid, r =>
    if st.hasChildren then [HOp.unmountChildren, HOp.replaceNode nid r]
    else [HOp.replaceNode nid r]
  | VN.fragN (some nid) _, r => [HOp.replaceNode nid r]
  | VN.fragN none (some (c :: cs)), r => replaceWithOps c r ++ unmountListOps cs
  | VN.fragN none (some []), r => []
  | VN.fragN none none, _ => []
  | VN.compN _ _ effects _ _ child, r => cleanupOps effects ++ replaceWithOps child r
  | VN.provN _ _ _ _ _ child, r => replaceWithOps child r
end

/-- Failures of a model run: a JavaScript runtime error of the source, a
component recursion exceeding the supplied fuel, or a tree state the source
cannot reach (e.g. a provider whose child is not a fragment). -/
inductive TreeErr where
  | jsError : JsError → TreeErr
  | outOfFuel : TreeErr
  | badState : TreeErr
deriving DecidableEq, Repr

mutual
/-- Translation of `createVNode` (src/h.ts lines 532-555) together with each
variant's constructor.  `fuel` bounds component-function invocations (the
source can diverge on a self-recursive component); `funs` is the environment
mapping a component function's identity and a props identity to the returned
descriptor (hook calls made during render are modelled in the hooks/scheduler
sections); `n` is the supply of fresh host-node ids.  Returns the mounted
node, the next fresh id and the host-operation trace. -/
def createVNode (fuel : Nat) (funs : Nat → Nat → Cfg) (cfg : Cfg) (n : Nat) :
    Except TreeErr (VN × Nat × List HOp) :=
  match cfg with
  | Cfg.nullC => Except.ok (VN.nullN n, n + 1, [HOp.createMarker n])
  | Cfg.textC s => Except.ok (VN.textN s n, n + 1, [HOp.createText n s])
  | Cfg.elemC tag pid props =>
    -- ElementNode constructor: createElement then addAllAttributes
    let st0 : ElemAttrs := { propsId := pid, attributes := none, hasChildren := false }
    let r := addAllAttributes st0 n props
    Except.ok (VN.elemN tag r.1 n, n + 1, HOp.createElement tag n :: r.2)
  | Cfg.fragC cs =>
    -- FragmentNode constructor: children when non-empty, else a marker
    if cs.length > 0 then
      match createList fuel funs cs n with
      | Except.error e => Except.error e
      | Except.ok (children, n1, ops) =>
        Except.ok (VN.fragN none (some children), n1, ops)
    else Except.ok (VN.fragN (some n) none, n + 1, [HOp.createMarker n])
  | Cfg.compC fn pid =>
    -- ComponentNode constructor: invoke the function, mount the child
    match fuel with
    | 0 => Except.error TreeErr.outOfFuel
    | fuel1 + 1 =>
      match createVNode fuel1 funs (funs fn pid) n with
      | Except.error e => Except.error e
      | Except.ok (child, n1, ops) =>
        Except.ok (VN.compN fn pid [] true false child, n1, ops)
  | Cfg.provC cfgId tok pid v cs =>
    -- ProviderNode constructor: wrap the children in a FragmentNode
    if cs.length > 0 then
      match createList fuel funs cs n with
      | Except.error e => Except.error e
      | Except.ok (children, n1, ops) =>
        Except.ok (VN.provN cfgId tok pid v cs (VN.fragN none (some children)), n1, ops)
    else
      Except.ok (VN.provN cfgId tok pid v cs (VN.fragN (some n) none), n + 1,
        [HOp.createMarker n])

/-- `createChildNodes` (src/h.ts lines 522-524): mount each descriptor in
order, threading the id supply. -/
def createList (fuel : Nat) (funs : Nat → Nat → Cfg) (cs : List Cfg) (n : Nat) :
    Except TreeErr (List VN × Nat × List HOp) :=
  match cs with
  | [] => Except.ok ([], n, [])
  | c :: rest =>
    match createVNode fuel funs c n with
    | Except.error e => Except.error e
    | Except.ok (v, n1, ops1) =>
      match createList fuel funs rest n1 with
      | Except.error e => Except.error e
      | Except.ok (vs, n2, ops2) => Except.ok (v :: vs, n2, ops1 ++ ops2)

/-- Translation of `updateVNode` (src/h.ts lines 558-620) together with the
`update` method of the matched variant: reuse the node in place when the
variant (and tag/function identity/provider token) matches, otherwise build a
replacement and splice it in. -/
def updateVNode (fuel : Nat) (funs : Nat → Nat → Cfg) (v : VN) (cfg : Cfg) (n : Nat) :
    Except TreeErr (VN × Nat × List HOp) :=
  match cfg with
  | Cfg.nullC =>
    match v with
    | VN.nullN nid => Except.ok (VN.nullN nid, n, [])
    | _ =>
      Except.ok (VN.nullN n, n + 1, HOp.createMarker n :: replaceWithOps v n)
  | Cfg.fragC cs =>
    match v with
    | VN.fragN nid children =>
      match fragmentUpdate fuel funs nid children cs n with
      | Except.error e => Except.error e
      | Except.ok (nid2, children2, n1, ops) =>
        Except.ok (VN.fragN nid2 children2, n1, ops)
    | _ =>
      match createVNode fuel funs (Cfg.fragC cs) n with
      | Except.error e => Except.error e
      | Except.ok (fragment, n1, ops) =>
        Except.ok (fragment, n1, ops ++ replaceWithOps v (vnFirstId fragment))
  | Cfg.textC s =>
    match v with
    | VN.textN s0 nid =>
      -- TextNode.update: strict-inequality guard on the stored primitive
      if s ≠ s0 then Except.ok (VN.textN s nid, n, [HOp.setText nid s])
      else Except.ok (VN.textN s0 nid, n, [])
    | _ =>
      match createVNode fuel funs (Cfg.textC s) n with
      | Except.error e => Except.error e
      | Except.ok (textNode, n1, ops) =>
        Except.ok (textNode, n1, ops ++ replaceWithOps v (vnFirstId textNode))
  | Cfg.elemC tag pid props =>
    match v with
    | VN.elemN tag0 st nid =>
      if tag0 = tag then
        match elementUpdate st nid pid props with
        | Except.error e => Except.error (TreeErr.jsError e)
        | Except.ok (st1, ops) => Except.ok (VN.elemN tag0 st1 nid, n, ops)
      else
        match createVNode fuel funs (Cfg.elemC tag pid props) n with
        | Except.error e => Except.error e
        | Except.ok (elementNode, n1, ops) =>
          Except.ok (elementNode, n1, ops ++ replaceWithOps v (vnFirstId elementNode))
    | _ =>
      match createVNode fuel funs (Cfg.elemC tag pid props) n with
      | Except.error e => Except.error e
      | Except.ok (elementNode, n1, ops) =>
        Except.ok (elementNode, n1, ops ++ replaceWithOps v (vnFirstId elementNode))
  | Cfg.compC fn pid =>
    match v with
    | VN.compN fn0 pid0 effects m _ child =>
      if fn0 = fn then
        -- ComponentNode.update: `if (config.props === this.config.props) return;`
        if pid = pid0 then Except.ok (v, n, [])
        else
          -- rerender(): clear dirty, re-invoke the function, reconcile the child
          match fuel with
          | 0 => Except.error TreeErr.outOfFuel
          | fuel1 + 1 =>
            match updateVNode fuel1 funs child (funs fn pid) n with
            | Except.error e => Except.error e
            | Except.ok (child1, n1, ops) =>
              Except.ok (VN.compN fn pid effects m false child1, n1, ops)
      else
        match createVNode fuel funs (Cfg.compC fn pid) n with
        | Except.error e => Except.error e
        | Except.ok (componentNode, n1, ops) =>
          Except.ok (componentNode, n1, ops ++ replaceWithOps v (vnFirstId componentNode))
    | _ =>
      match createVNode fuel funs (Cfg.compC fn pid) n with
      | Except.error e => Except.error e
      | Except.ok (componentNode, n1, ops) =>
        Except.ok (componentNode, n1, ops ++ replaceWithOps v (vnFirstId componentNode))
  | Cfg.provC cfgId tok pid pv cs =>
    match v with
    | VN.provN cfgId0 tok0 _ _ _ child =>
      if tok0 = tok then
        -- ProviderNode.update: `if (config === this.config) return;`
        if cfgId = cfgId0 then Except.ok (v, n, [])
        else
          -- subscriber scheduling on a value change touches only the
          -- scheduler (see providerUpdateSched); then the child fragment is
          -- reconciled against the new children
          match child with
          | VN.fragN fnid fch =>
            match fragmentUpdate fuel funs fnid fch cs n with
            | Except.error e => Except.error e
            | Except.ok (nid2, children2, n1, ops) =>
              Except.ok (VN.provN cfgId tok pid pv cs (VN.fragN nid2 children2), n1, ops)
          | _ => Except.error TreeErr.badState
      else
        match createVNode fuel funs (Cfg.provC cfgId tok pid pv cs) n with
        | Except.error e => Except.error e
        | Except.ok (providerNode, n1, ops) =>
          Except.ok (providerNode, n1, ops ++ replaceWithOps v (vnFirstId providerNode))
    | _ =>
      match createVNode fuel funs (Cfg.provC cfgId tok pid pv cs) n with
      | Except.error e => Except.error e
      | Except.ok (providerNode, n1, ops) =>
        Except.ok (providerNode, n1, ops ++ replaceWithOps v (vnFirstId providerNode))

/-- The lockstep phase of `FragmentNode.update` (src/h.ts lines 308-311):
`for (; i < children.length && i < configs.length; i++) children[i] =
updateVNode(children[i], configs[i], context)`.  Returns the updated prefix,
the surplus mounted children, the surplus descriptors and the trace. -/
def updateList (fuel : Nat) (funs : Nat → Nat → Cfg) (vs : List VN) (cs : List Cfg)
    (n : Nat) :
    Except TreeErr (List VN × List VN × List Cfg × Nat × List HOp) :=
  match vs, cs with
  | vs, [] => Except.ok ([], vs, [], n, [])
  | [], cs => Except.ok ([], [], cs, n, [])
  | v :: vrest, c :: crest =>
    match updateVNode fuel funs v c n with
    | Except.error e => Except.error e
    | Except.ok (v1, n1, ops1) =>
      match updateList fuel funs vrest crest n1 with
      | Except.error e => Except.error e
      | Except.ok (prefix1, leftV, leftC, n2, ops2) =>
        Except.ok (v1 :: prefix1, leftV, leftC, n2, ops1 ++ ops2)

/-- The append phase of `FragmentNode.update` (src/h.ts lines 316-323): for
each remaining descriptor, read the fragment's current last host node, mount
the descriptor and insert it right after that node. -/
def appendLoop (fuel : Nat) (funs : Nat → Nat → Cfg) (lastId : Nat) (cs : List Cfg)
    (n : Nat) : Except TreeErr (List VN × Nat × List HOp) :=
  match cs with
  | [] => Except.ok ([], n, [])
  | c :: rest =>
    match createVNode fuel funs c n with
    | Except.error e => Except.error e
    | Except.ok (child, n1, ops1) =>
      match appendLoop fuel funs (vnLastId child) rest n1 with
      | Except.error e => Except.error e
      | Except.ok (children, n2, ops2) =>
        Except.ok (child :: children, n2,
          ops1 ++ [HOp.insertAfter lastId (vnFirstId child)] ++ ops2)

/-- Translation of `FragmentNode.update` (src/h.ts lines 304-344) on the
fragment's state `(node, children)`.  The source's outer condition is
`if (children && configs.length > 0)`, which makes the inner
`else` branch (lines 324-332, replacing the first child with a fresh marker)
unreachable; both are translated as written.  When children exist and the
descriptor list is empty, control reaches the outer `else` where
`const node = this.node!` reads `undefined` and the `configs.length > 0`
guard fails, so the call does nothing. -/
def fragmentUpdate (fuel : Nat) (funs : Nat → Nat → Cfg) (nid : Option Nat)
    (children : Option (List VN)) (cs : List Cfg) (n : Nat) :
    Except TreeErr (Option Nat × Option (List VN) × Nat × List HOp) :=
  match children with
  | some chs =>
    if cs.length > 0 then
      if cs.length > 0 then
        match updateList fuel funs chs cs n with
        | Except.error e => Except.error e
        | Except.ok (prefix1, leftV, leftC, n1, ops1) =>
          -- `while (i < children.length) children.pop()!.unmount()`:
          -- surplus children are popped from the end, so they unmount in
          -- reverse order
          let ops2 := unmountListOps leftV.reverse
          match appendLoop fuel funs (vnListLastId prefix1) leftC n1 with
          | Except.error e => Except.error e
          | Except.ok (appended, n2, ops3) =>
            Except.ok (nid, some (prefix1 ++ appended), n2, ops1 ++ ops2 ++ ops3)
      else
        -- dead code in the source (lines 324-332): replace the first child
        -- with a fresh marker, unmount the rest
        match chs with
        | c0 :: rest =>
          Except.ok (some n, none, n + 1,
            HOp.createMarker n :: replaceWithOps c0 n ++ unmountListOps rest)
        | [] => Except.error TreeErr.badState
    else
      -- `const node = this.node!` is `undefined` here; the following
      -- `if (configs.length > 0)` fails: the update is a no-op
      Except.ok (nid, children, n, [])
  | none =>
    if cs.length > 0 then
      match nid with
      | some nodeId =>
        match createList fuel funs cs n with
        | Except.error e => Except.error e
        | Except.ok (newChildren, n1, ops1) =>
          -- each new child is inserted before the marker, then the marker
          -- is removed
          Except.ok (none, some newChildren, n1,
            ops1 ++ newChildren.map (fun c => HOp.insertBefore nodeId (vnFirstId c))
              ++ [HOp.removeNode nodeId])
      | none => Except.error TreeErr.badState
    else Except.ok (nid, children, n, [])
end

mutual
/-- Structural size of a descriptor, used as the induction measure for
no-op-update proofs (`sizeOf` is unusable here because `Nat` fields count
as their value). -/
def cfgSize : Cfg → Nat
  | Cfg.nullC => 1
  | Cfg.textC _ => 1
  | Cfg.elemC _ _ _ => 1
  | Cfg.compC _ _ => 1
  | Cfg.provC _ _ _ _ cs => 2 + cfgListSize cs
  | Cfg.fragC cs => 1 + cfgListSize cs

def cfgListSize : List Cfg → Nat
  | [] => 0
  | c :: cs => cfgSize c + cfgListSize cs
end

mutual
/-- `matchesB v c` states that the mounted node `v` currently stores exactly
the identities carried by the descriptor `c`, i.e. that `c` is a re-supply of
the descriptor `v` was last reconciled against, with a reference-identical
property bag: text nodes store the same primitive, elements the same tag and
props identity, components the same function and props identity, providers
the same token, props identity, value and pointwise-matching children (the
provider descriptor object itself — `cfgId` — may differ), fragments
pointwise-matching children. -/
def matchesB : VN → Cfg → Bool
  | VN.nullN _, Cfg.nullC => true
  | VN.textN s0 _, Cfg.textC s => s0 = s
  | VN.elemN tag0 st _, Cfg.elemC tag pid _ => tag0 = tag && st.propsId = pid
  | VN.compN fn0 pid0 _ _ _ _, Cfg.compC fn pid => fn0 = fn && pid0 = pid
  | VN.provN _ tok0 pid0 v0 _ child, Cfg.provC _ tok pid v cs =>
      tok0 = tok && pid0 = pid && v0 = v && matchesB child (Cfg.fragC cs)
  | VN.fragN _ (some chs), Cfg.fragC cs => matchesList chs cs
  | VN.fragN _ none, Cfg.fragC cs => cs.isEmpty
  | _, _ => false

def matchesList : List VN → List Cfg → Bool
  | [], [] => true
  | v :: vs, c :: cs => matchesB v c && matchesList vs cs
  | _, _ => false
end

/-- The cleanup tags of a component's own effect records
(`this.effects` entries with a registered cleanup). -/
def effectTags (effects : List EffectRec) : List Nat :=
  effects.filterMap (fun e => e.cleanup)

mutual
/-- All effect-cleanup tags registered anywhere in a subtree. -/
def vnCleanupTags : VN → List Nat
  | VN.nullN _ => []
  | VN.textN _ _ => []
  | VN.elemN _ _ _ => []
  | VN.fragN _ (some cs) => vnListCleanupTags cs
  | VN.fragN _ none => []
  | VN.compN _ _ effects _ _ child => effectTags effects ++ vnCleanupTags child
  | VN.provN _ _ _ _ _ child => vnCleanupTags child

def vnListCleanupTags : List VN → List Nat
  | [] => []
  | c :: cs => vnCleanupTags c ++ vnListCleanupTags cs
end

/-- The runner closure built by `UpdateHooks.useCommonEffect` (src/h.ts lines
993-996): `() => { data.cleanup?.(); data.cleanup = action(); }` — the
previous cleanup (when one was registered) runs strictly before the new body,
whose returned cleanup (`newCleanup`) is stored.  `bodyTag` identifies the
body invocation in the trace. -/
def runUpdateEffect (e : EffectRec) (bodyTag : Nat) (newCleanup : Option Nat) :
    EffectRec × List HOp :=
  ({ e with cleanup := newCleanup },
   (match e.cleanup with
    | some k => [HOp.runCleanup k]
    | none => []) ++ [HOp.runEffectBody bodyTag])

/-! ### Characterisation of the dependency comparison -/

theorem scanNe_iff (a b : List JValue) (i : Nat) :
    scanNe a b i = true ↔ ∃ j, i ≤ j ∧ j < a.length ∧ jsGet a j ≠ jsGet b j := by
  rw [scanNe]
  split
  · rename_i hlt
    split
    · rename_i hne
      constructor
      · intro _
        exact ⟨i, Nat.le_refl i, hlt, hne⟩
      · intro _
        rfl
    · rename_i heq
      rw [scanNe_iff a b (i + 1)]
      constructor
      · rintro ⟨j, hij, hj, hjne⟩
        exact ⟨j, by omega, hj, hjne⟩
      · rintro ⟨j, hij, hj, hjne⟩
        rcases eq_or_ne i j with rfl | hijne
        · exact absurd hjne heq
        · exact ⟨j, by omega, hj, hjne⟩
  · rename_i hge
    constructor
    · intro h
      exact absurd h (by simp)
    · rintro ⟨j, hij, hj, _⟩
      omega
termination_by a.length - i

theorem haveDependenciesChanged_some_iff (p n : List JValue) :
    haveDependenciesChanged (some p) (some n) = true ↔
      (p.length ≠ n.length ∨ ∃ i, i < p.length ∧ i < n.length ∧ jsGet p i ≠ jsGet n i) := by
  show (if p.length ≠ n.length then true else scanNe p n 0) = true ↔ _
  by_cases hlen : p.length ≠ n.length
  · rw [if_pos hlen]
    constructor
    · intro _
      exact Or.inl hlen
    · intro _
      rfl
  · rw [if_neg hlen, scanNe_iff p n 0]
    constructor
    · rintro ⟨j, _, hj, hjne⟩
      exact Or.inr ⟨j, hj, by omega, hjne⟩
    · rintro (h | ⟨i, hi1, hi2, hine⟩)
      · exact absurd h hlen
      · exact ⟨i, Nat.zero_le i, hi1, hine⟩

theorem haveDependenciesChanged_none_left (next : Option (List JValue)) :
    haveDependenciesChanged none next = true := rfl

theorem haveDependenciesChanged_none_right (previous : Option (List JValue)) :
    haveDependenciesChanged previous none = true := by
  unfold haveDependenciesChanged
  cases previous <;> rfl

theorem scanNe_self (l : List JValue) (i : Nat) : scanNe l l i = false := by
  rw [scanNe]
  split
  · rw [if_neg (by simp), scanNe_self l (i + 1)]
  · rfl
termination_by l.length - i

/-- The number of producer invocations of one `UpdateHooks.useMemo` call:
one for the length test, one for the element scan. -/
theorem useMemoUpdate_calls (memo : MemoCell) (deps : List JValue)
    (producer : Nat → JValue) :
    (useMemoUpdate memo deps producer).2.2 =
      (if memo.dependencies.length ≠ deps.length then 1 else 0) +
      (if scanNe deps memo.dependencies 0 then 1 else 0) := by
  unfold useMemoUpdate
  by_cases hlen : memo.dependencies.length ≠ deps.length <;>
    by_cases hscan : scanNe deps memo.dependencies 0 = true <;>
      simp [hlen, hscan]

/-- The value returned when nothing recomputed is the cached one. -/
theorem useMemoUpdate_value_cached (memo : MemoCell) (deps : List JValue)
    (producer : Nat → JValue)
    (hlen : memo.dependencies.length = deps.length)
    (hscan : scanNe deps memo.dependencies 0 = false) :
    (useMemoUpdate memo deps producer).2.1 = memo.value := by
  unfold useMemoUpdate
  simp [hlen, hscan]

/-! ### Claims C4 and C10: the memo/effect dependency laws -/

/-- C4.  For every re-render at a `useMemo`/`useEffect` slot with stored
dependency list `p` and supplied list `n`, the memo recomputes (the producer
runs at least once), respectively the effect re-runs, if and only if the
lengths differ or some shared position differs by strict inequality; the same
list (same references) never recomputes, and an absent dependency list always
re-runs. -/
theorem claim_C4_dependency_law :
    (∀ (memo : MemoCell) (deps : List JValue) (producer : Nat → JValue),
        0 < (useMemoUpdate memo deps producer).2.2 ↔
          (memo.dependencies.length ≠ deps.length ∨
            ∃ i, i < memo.dependencies.length ∧ i < deps.length ∧
              jsGet memo.dependencies i ≠ jsGet deps i))
    ∧ (∀ (e : EffectRec) (p n : List JValue), e.dependencies = some p →
        ((useCommonEffectUpdate e (some n)).2 = true ↔
          (p.length ≠ n.length ∨
            ∃ i, i < p.length ∧ i < n.length ∧ jsGet p i ≠ jsGet n i)))
    ∧ (∀ (e : EffectRec) (deps : Option (List JValue)),
        e.dependencies = none ∨ deps = none →
        (useCommonEffectUpdate e deps).2 = true)
    ∧ (∀ (memo : MemoCell) (a b : JValue) (producer : Nat → JValue),
        memo.dependencies = [a, b] →
        (useMemoUpdate memo [a, b] producer).2.2 = 0 ∧
          (useMemoUpdate memo [a, b] producer).2.1 = memo.value)
    ∧ (∀ (e : EffectRec) (a b : JValue), e.dependencies = some [a, b] →
        (useCommonEffectUpdate e (some [a, b])).2 = false) := by
  refine ⟨?_, ?_, ?_, ?_, ?_⟩
  · intro memo deps producer
    rw [useMemoUpdate_calls]
    constructor
    · intro hpos
      by_cases hlen : memo.dependencies.length ≠ deps.length
      · exact Or.inl hlen
      · rw [if_neg hlen] at hpos
        have hleneq : memo.dependencies.length = deps.length := not_not.mp hlen
        by_cases hscan : scanNe deps memo.dependencies 0 = true
        · obtain ⟨j, _, hj, hjne⟩ := (scanNe_iff deps memo.dependencies 0).mp hscan
          have hjm : j < memo.dependencies.length := by omega
          exact Or.inr ⟨j, hjm, hj, fun he => hjne (by rw [he])⟩
        · rw [if_neg hscan] at hpos
          omega
    · rintro (hlen | ⟨i, hi1, hi2, hine⟩)
      · rw [if_pos hlen]
        omega
      · have hscan : scanNe deps memo.dependencies 0 = true :=
          (scanNe_iff deps memo.dependencies 0).mpr
            ⟨i, Nat.zero_le i, hi2, fun he => hine (by rw [he])⟩
        rw [hscan]
        simp
  · intro e p n hp
    unfold useCommonEffectUpdate
    rw [hp, ← haveDependenciesChanged_some_iff p n]
    by_cases hch : haveDependenciesChanged (some p) (some n) = true
    · simp [hch]
    · simp [hch]
  · intro e deps hnone
    unfold useCommonEffectUpdate
    rcases hnone with hprev | hnext
    · rw [hprev, haveDependenciesChanged_none_left]
      simp
    · rw [hnext, haveDependenciesChanged_none_right]
      simp
  · intro memo a b producer hdeps
    constructor
    · rw [useMemoUpdate_calls, hdeps, if_neg (by simp), scanNe_self]
      simp
    · exact useMemoUpdate_value_cached memo [a, b] producer (by rw [hdeps])
        (by rw [hdeps]; exact scanNe_self [a, b] 0)
  · intro e a b hdeps
    unfold useCommonEffectUpdate
    rw [hdeps]
    have hch : haveDependenciesChanged (some [a, b]) (some [a, b]) = false := by
      show (if ([a, b] : List JValue).length ≠ ([a, b] : List JValue).length then true
        else scanNe [a, b] [a, b] 0) = false
      rw [if_neg (by simp), scanNe_self]
    rw [hch]
    simp

/-- Witness for C4: the effect law at a concrete changed input, the no-change
pair at a concrete input. -/
theorem claim_C4_dependency_law_witness :
    (useCommonEffectUpdate { dependencies := some [JValue.num 1], cleanup := none }
        (some [JValue.num 2])).2 = true
    ∧ (useMemoUpdate { value := JValue.num 9, dependencies := [JValue.num 1, JValue.num 2] }
        [JValue.num 1, JValue.num 2] (fun _ => JValue.num 0)).2.2 = 0 := by
  constructor
  · exact (claim_C4_dependency_law.2.1 _ [JValue.num 1] [JValue.num 2] rfl).mpr
      (Or.inr ⟨0, by simp, by simp, by simp [jsGet]⟩)
  · exact (claim_C4_dependency_law.2.2.2.1 _ (JValue.num 1) (JValue.num 2)
      (fun _ => JValue.num 0) rfl).1

/-- C10.  `UpdateHooks.useMemo` invokes the producer twice in one call
whenever the dependency length changed and additionally some shared index
differs by strict inequality; such a re-render exists. -/
theorem claim_C10_double_producer_call :
    (∀ (memo : MemoCell) (deps : List JValue) (producer : Nat → JValue),
        memo.dependencies.length ≠ deps.length →
        (∃ i, i < memo.dependencies.length ∧ i < deps.length ∧
          jsGet memo.dependencies i ≠ jsGet deps i) →
        (useMemoUpdate memo deps producer).2.2 = 2)
    ∧ (∃ (memo : MemoCell) (deps : List JValue) (producer : Nat → JValue),
        (useMemoUpdate memo deps producer).2.2 = 2) := by
  have hmain : ∀ (memo : MemoCell) (deps : List JValue) (producer : Nat → JValue),
      memo.dependencies.length ≠ deps.length →
      (∃ i, i < memo.dependencies.length ∧ i < deps.length ∧
        jsGet memo.dependencies i ≠ jsGet deps i) →
      (useMemoUpdate memo deps producer).2.2 = 2 := by
    rintro memo deps producer hlen ⟨i, hi1, hi2, hine⟩
    rw [useMemoUpdate_calls, if_pos hlen,
      (scanNe_iff deps memo.dependencies 0).mpr
        ⟨i, Nat.zero_le i, hi2, fun he => hine (by rw [he])⟩]
    simp
  refine ⟨hmain, ?_⟩
  refine ⟨{ value := JValue.num 0, dependencies := [JValue.num 1] },
    [JValue.num 2, JValue.num 3], fun _ => JValue.num 0, ?_⟩
  apply hmain
  · simp
  · exact ⟨0, by simp, by simp, by simp [jsGet]⟩

/-- Witness for C10: the double invocation at a concrete input. -/
theorem claim_C10_double_producer_call_witness :
    (useMemoUpdate { value := JValue.num 0, dependencies := [JValue.num 1] }
      [JValue.num 2, JValue.num 3] (fun k => JValue.num (Int.ofNat k))).2.2 = 2 :=
  claim_C10_double_producer_call.1 _ _ _ (by simp)
    ⟨0, by simp, by simp, by simp [jsGet]⟩

/-! ### Claim C3: `useImperativeHandle` on re-render -/

/-- C3 counterexample.  The claim asserts that whenever the supplied ref
changed identity since the previous render, detach of the old ref AND attach
of the new ref both occur.  At this concrete input the ref changed (box 1 to
box 2) and the dependency list is unchanged (`[]` then `[]`): the call emits
only the detach of the old ref — no attach of the new ref occurs (and the
producer is not invoked), refuting the claim. -/
theorem claim_C3_counterexample :
    (some (RefV.box 2) : Option RefV) ≠ some (RefV.box 1)
    ∧ (useImperativeHandleUpdate
        { ref := some (RefV.box 1), imperativeHandle := JValue.num 0,
          dependencies := some [] }
        { cleanup := some (RefV.box 1) }
        (some (RefV.box 2)) (some []) (JValue.num 5)).2.2.1
      = [IHEvent.detach (RefV.box 1)]
    ∧ (useImperativeHandleUpdate
        { ref := some (RefV.box 1), imperativeHandle := JValue.num 0,
          dependencies := some [] }
        { cleanup := some (RefV.box 1) }
        (some (RefV.box 2)) (some []) (JValue.num 5)).2.2.2 = 0 := by
  refine ⟨by simp, ?_, ?_⟩ <;>
    simp [useImperativeHandleUpdate, haveDependenciesChanged, scanNe]

/-- C3 amended.  On a re-render at a `useImperativeHandle` slot: the producer
is re-invoked (and, when a ref is supplied, the handle attached) exactly when
the dependency list changed relative to the list recorded when the slot was
created — the stored `data.dependencies` is never reassigned on update; and
whenever the supplied ref changed identity, the previously registered cleanup
runs (detaching the previously attached ref) and the stored ref is replaced,
without recomputation — but no attach of the new ref occurs unless the
dependency comparison also reports a change. -/
theorem claim_C3_imperative_handle_amended (data : IHData) (effect : IHEffect)
    (ref : Option RefV) (deps : Option (List JValue)) (handle : JValue) :
    ((useImperativeHandleUpdate data effect ref deps handle).2.2.2 =
        if haveDependenciesChanged data.dependencies deps then 1 else 0)
    ∧ ((useImperativeHandleUpdate data effect ref deps handle).1.dependencies =
        data.dependencies)
    ∧ (ref ≠ data.ref → haveDependenciesChanged data.dependencies deps = false →
        (useImperativeHandleUpdate data effect ref deps handle).2.2.1 =
          (match effect.cleanup with
           | some r => [IHEvent.detach r]
           | none => [])
        ∧ (useImperativeHandleUpdate data effect ref deps handle).2.1 = effect
        ∧ (useImperativeHandleUpdate data effect ref deps handle).1.ref = ref
        ∧ (useImperativeHandleUpdate data effect ref deps handle).1.imperativeHandle =
            data.imperativeHandle)
    ∧ (∀ rv, ref = some rv → haveDependenciesChanged data.dependencies deps = true →
        (useImperativeHandleUpdate data effect ref deps handle).2.2.1 =
          (if ref ≠ data.ref then
            (match effect.cleanup with
             | some r => [IHEvent.detach r]
             | none => [])
           else []) ++ [IHEvent.attach rv]
        ∧ (useImperativeHandleUpdate data effect ref deps handle).1.imperativeHandle =
            handle
        ∧ (useImperativeHandleUpdate data effect ref deps handle).2.1.cleanup =
            some rv) := by
  unfold useImperativeHandleUpdate
  by_cases href : ref ≠ data.ref
  · rw [if_pos href]
    dsimp only
    by_cases hch : haveDependenciesChanged data.dependencies deps = true
    · rw [hch]
      refine ⟨?_, ?_, ?_, ?_⟩
      · cases ref with
        | none => simp [hch]
        | some rv => cases rv <;> simp [hch]
      · cases ref with
        | none => simp
        | some rv => cases rv <;> simp
      · intro _ hfalse
        exact absurd hfalse (by simp)
      · rintro rv rfl _
        rw [if_pos href]
        cases rv <;> simp
    · rw [Bool.not_eq_true] at hch
      rw [hch]
      refine ⟨?_, ?_, ?_, ?_⟩
      · simp [hch]
      · simp
      · intro _ _
        cases hcl : effect.cleanup <;> simp [hcl]
      · rintro rv rfl habs
        exact absurd habs (by simp)
  · rw [if_neg href]
    dsimp only
    by_cases hch : haveDependenciesChanged data.dependencies deps = true
    · rw [hch]
      refine ⟨?_, ?_, ?_, ?_⟩
      · cases ref with
        | none => simp [hch]
        | some rv => cases rv <;> simp [hch]
      · cases ref with
        | none => simp
        | some rv => cases rv <;> simp
      · intro habs _
        exact absurd habs href
      · rintro rv rfl _
        rw [if_neg href]
        cases rv <;> simp
    · rw [Bool.not_eq_true] at hch
      rw [hch]
      refine ⟨?_, ?_, ?_, ?_⟩
      · simp [hch]
      · simp
      · intro habs _
        exact absurd habs href
      · rintro rv rfl habs
        exact absurd habs (by simp)

/-- Witness for the amended C3: at a concrete input with a changed ref and
unchanged dependencies, only the detach is emitted and the stored handle and
effect record are untouched. -/
theorem claim_C3_imperative_handle_amended_witness :
    (some (RefV.fn 4) : Option RefV) ≠ some (RefV.box 1)
    ∧ haveDependenciesChanged (some [JValue.num 3]) (some [JValue.num 3]) = false
    ∧ (useImperativeHandleUpdate
        { ref := some (RefV.box 1), imperativeHandle := JValue.num 0,
          dependencies := some [JValue.num 3] }
        { cleanup := some (RefV.box 1) }
        (some (RefV.fn 4)) (some [JValue.num 3]) (JValue.num 5)).2.2.1
      = [IHEvent.detach (RefV.box 1)] := by
  have h1 : (some (RefV.fn 4) : Option RefV) ≠ some (RefV.box 1) := by simp
  have h2 : haveDependenciesChanged (some [JValue.num 3]) (some [JValue.num 3]) = false := by
    show (if ([JValue.num 3] : List JValue).length ≠ ([JValue.num 3] : List JValue).length
      then true else scanNe [JValue.num 3] [JValue.num 3] 0) = false
    rw [if_neg (by simp), scanNe_self]
  exact ⟨h1, h2,
    ((claim_C3_imperative_handle_amended
      { ref := some (RefV.box 1), imperativeHandle := JValue.num 0,
        dependencies := some [JValue.num 3] }
      { cleanup := some (RefV.box 1) }
      (some (RefV.fn 4)) (some [JValue.num 3]) (JValue.num 5)).2.2.1 h1 h2).1⟩

/-! ### Scheduler lemmas for claims C5 and C6 -/

theorem getD_set_self_any {α : Type} {l : List α} {i : Nat} {a d : α}
    (h : i < l.length) : (l.set i a).getD i d = a := by
  simp [List.getD_eq_getElem?_getD, List.getElem?_set_self' , h]

theorem getD_set_ne_any {α : Type} {l : List α} {i j : Nat} {a d : α}
    (h : i ≠ j) : (l.set i a).getD j d = l.getD j d := by
  simp [List.getD_eq_getElem?_getD, List.getElem?_set_ne h]

/-- A mounted component id is in range (out-of-range reads yield the
unmounted `defaultComp`). -/
theorem getComp_mounted_lt {st : SchedState} {id : Nat}
    (h : (getComp st id).mounted = true) : id < st.comps.length := by
  by_contra hge
  rw [getComp, List.getD_eq_getElem?_getD, List.getElem?_eq_none (by omega)] at h
  simp [defaultComp] at h

theorem rcr_comps_ne (st : SchedState) (id j : Nat) (hne : j ≠ id) :
    getComp (requestComponentRerender st id) j = getComp st j := by
  unfold requestComponentRerender
  dsimp only
  split
  · rfl
  · split <;>
      simp [getComp, List.getD_eq_getElem?_getD, List.getElem?_set_ne (Ne.symm hne)]

theorem rcr_dirty_self (st : SchedState) (id : Nat)
    (h : (getComp st id).mounted = true) :
    (getComp (requestComponentRerender st id) id).dirty = true := by
  unfold requestComponentRerender
  dsimp only
  split
  · rename_i hcond
    simp [h] at hcond
    exact hcond
  · have hlt : id < st.comps.length := getComp_mounted_lt h
    split <;>
      simp [getComp, List.getD_eq_getElem?_getD, List.getElem?_set_self' ,
        List.getElem?_eq_getElem hlt]

theorem rcr_mounted (st : SchedState) (id j : Nat) :
    (getComp (requestComponentRerender st id) j).mounted = (getComp st j).mounted := by
  rcases eq_or_ne j id with rfl | hne
  · unfold requestComponentRerender
    dsimp only
    split
    · rfl
    · rename_i hcond
      have hm : (getComp st j).mounted = true := by
        rcases Bool.eq_false_or_eq_true (getComp st j).mounted with ht | hf
        · exact ht
        · exact absurd (by simp [hf]) hcond
      have hlt : j < st.comps.length := getComp_mounted_lt hm
      split <;>
        simp [getComp, List.getD_eq_getElem?_getD, List.getElem?_set_self' ,
          List.getElem?_eq_getElem hlt]
  · rw [rcr_comps_ne st id j hne]

theorem rcr_preserves_dirty (st : SchedState) (id j : Nat)
    (h : (getComp st j).dirty = true) :
    (getComp (requestComponentRerender st id) j).dirty = true := by
  rcases eq_or_ne j id with rfl | hne
  · unfold requestComponentRerender
    dsimp only
    split
    · exact h
    · rename_i hcond
      rw [h] at hcond
      simp at hcond
  · rw [rcr_comps_ne st id j hne]
    exact h

theorem rcr_queue (st : SchedState) (id : Nat)
    (hm : (getComp st id).mounted = true) (hd : (getComp st id).dirty = false) :
    (requestComponentRerender st id).updateQueue =
      enqueueNode st.updateQueue { id := id, depth := (getComp st id).depth } := by
  unfold requestComponentRerender
  dsimp only
  rw [if_neg (by simp [hm, hd])]
  split <;> rfl

theorem rcr_rendersRun (st : SchedState) (id : Nat) :
    (requestComponentRerender st id).rendersRun = st.rendersRun := by
  unfold requestComponentRerender
  dsimp only
  split
  · rfl
  · split <;> rfl

theorem foldl_rcr_ne (subs : List Nat) :
    ∀ (st : SchedState) (j : Nat), j ∉ subs →
      getComp (subs.foldl requestComponentRerender st) j = getComp st j := by
  induction subs with
  | nil => intro st j _; rfl
  | cons a rest ih =>
    intro st j hj
    rw [List.foldl_cons, ih _ j (fun hm => hj (List.mem_cons_of_mem a hm)),
      rcr_comps_ne st a j (fun he => hj (he ▸ List.mem_cons_self a rest))]

theorem foldl_rcr_dirty_preserved (subs : List Nat) :
    ∀ (st : SchedState) (j : Nat), (getComp st j).dirty = true →
      (getComp (subs.foldl requestComponentRerender st) j).dirty = true := by
  induction subs with
  | nil => intro st j h; exact h
  | cons a rest ih =>
    intro st j h
    exact ih _ j (rcr_preserves_dirty st a j h)

theorem foldl_rcr_mem (subs : List Nat) :
    ∀ (st : SchedState) (j : Nat), j ∈ subs → (getComp st j).mounted = true →
      (getComp (subs.foldl requestComponentRerender st) j).dirty = true := by
  induction subs with
  | nil => intro st j h; simp at h
  | cons a rest ih =>
    intro st j hj hm
    rcases eq_or_ne j a with rfl | hne
    · exact foldl_rcr_dirty_preserved rest _ j (rcr_dirty_self st j hm)
    · have hj2 : j ∈ rest := by
        rcases List.mem_cons.mp hj with he | hm2
        · exact absurd he hne
        · exact hm2
      exact ih _ j hj2 (by rw [rcr_mounted]; exact hm)

/-! ### Claim C5: provider value change schedules exactly the subscribers -/

/-- C5.  When a Provider's update receives a descriptor with a value
differing by strict inequality from the stored one, every mounted component
in its subscriber set is dirty (scheduled) afterwards, and components outside
the subscriber set are untouched; and a `useContext` whose token resolves no
enclosing provider returns the token's default value. -/
theorem claim_C5_provider_scheduling :
    (∀ (p : ProvRec) (newCfgId : Nat) (newValue : JValue) (st : SchedState),
        newCfgId ≠ p.cfgId → newValue ≠ p.value →
        (∀ id ∈ p.subscribers, (getComp st id).mounted = true →
          (getComp (providerUpdateSched p newCfgId newValue st).2 id).dirty = true)
        ∧ (∀ id, id ∉ p.subscribers →
          getComp (providerUpdateSched p newCfgId newValue st).2 id = getComp st id))
    ∧ (∀ (providers : Nat → Option ProvRec) (tok : Nat) (dflt : JValue) (owner : Nat),
        providers tok = none → (useContextCreate providers tok dflt owner).1 = dflt) := by
  constructor
  · intro p newCfgId newValue st hcfg hval
    unfold providerUpdateSched
    rw [if_neg hcfg, if_pos hval]
    dsimp only
    exact ⟨fun id hid hm => foldl_rcr_mem p.subscribers st id hid hm,
      fun id hid => foldl_rcr_ne p.subscribers st id hid⟩
  · intro providers tok dflt owner hnone
    unfold useContextCreate
    rw [hnone]

/-- A one-component scheduler state used by the C5/C6 witnesses. -/
def witnessSched : SchedState :=
  { comps := [{ depth := 2, dirty := false, mounted := true }],
    updateQueue := [], drainScheduled := false, rendersRun := 0 }

/-- A one-subscriber provider record used by the C5 witness. -/
def witnessProv : ProvRec :=
  { cfgId := 1, value := JValue.num 3, subscribers := [0] }

/-- Witness for C5: a concrete provider with one mounted subscriber, and a
concrete empty provider mapping. -/
theorem claim_C5_provider_scheduling_witness :
    ((2 : Nat) ≠ 1 ∧ JValue.num 7 ≠ JValue.num 3
      ∧ (getComp witnessSched 0).mounted = true)
    ∧ (getComp (providerUpdateSched witnessProv 2 (JValue.num 7) witnessSched).2 0).dirty
        = true
    ∧ (useContextCreate (fun _ => none) 4 (JValue.num 42) 9).1 = JValue.num 42 := by
  refine ⟨⟨by decide, by decide, by decide⟩, ?_, ?_⟩
  · exact (claim_C5_provider_scheduling.1 witnessProv 2 (JValue.num 7) witnessSched
      (by decide) (by decide)).1 0 (by decide) (by decide)
  · exact claim_C5_provider_scheduling.2 (fun _ => none) 4 (JValue.num 42) 9 rfl

/-! ### Claim C6: the `useState` setter -/

/-- C6.  For a mounted, not-yet-dirty component, calling the `useState`
setter with a value unequal by strict inequality to the cell's current value
updates the cell, marks exactly the owning component dirty, pushes exactly
one queue entry for the owner, and performs no synchronous re-render; a
strictly-equal value changes nothing. -/
theorem claim_C6_useState_setter (st : SchedState) (cell : JValue) (owner : Nat)
    (update : Updater)
    (hm : (getComp st owner).mounted = true)
    (hd : (getComp st owner).dirty = false) :
    (applyUpdater update cell ≠ cell →
        (useStateSetterCall st cell owner update).1 = applyUpdater update cell
        ∧ (getComp (useStateSetterCall st cell owner update).2 owner).dirty = true
        ∧ (∀ j, j ≠ owner →
            getComp (useStateSetterCall st cell owner update).2 j = getComp st j)
        ∧ (∀ x : QNode,
            (useStateSetterCall st cell owner update).2.updateQueue.count x =
              st.updateQueue.count x +
                (if ({ id := owner, depth := (getComp st owner).depth } : QNode) = x
                 then 1 else 0))
        ∧ (useStateSetterCall st cell owner update).2.rendersRun = st.rendersRun)
    ∧ (applyUpdater update cell = cell →
        useStateSetterCall st cell owner update = (cell, st)) := by
  unfold useStateSetterCall
  dsimp only
  constructor
  · intro hne
    rw [if_pos (Ne.symm hne)]
    refine ⟨rfl, rcr_dirty_self st owner hm, ?_, ?_, rcr_rendersRun st owner⟩
    · intro j hj
      exact rcr_comps_ne st owner j hj
    · intro x
      rw [rcr_queue st owner hm hd, enqueueNode_count]
  · intro heq
    rw [if_neg (by rw [heq]; exact fun h => h rfl)]

/-- Witness for C6: the one-component scheduler state, a setter call with a
different value. -/
theorem claim_C6_useState_setter_witness :
    ((getComp witnessSched 0).mounted = true
      ∧ (getComp witnessSched 0).dirty = false
      ∧ applyUpdater (Updater.value (JValue.num 1)) (JValue.num 0) ≠ JValue.num 0)
    ∧ (useStateSetterCall witnessSched (JValue.num 0) 0
        (Updater.value (JValue.num 1))).1
      = applyUpdater (Updater.value (JValue.num 1)) (JValue.num 0) := by
  refine ⟨⟨by decide, by decide, by decide⟩, ?_⟩
  exact ((claim_C6_useState_setter witnessSched (JValue.num 0) 0
    (Updater.value (JValue.num 1)) (by decide) (by decide)).1 (by decide)).1

/-! ### Claim C7: the drain loop processes components in depth order -/

/-- Components at depths 3, 1, 2, 1 (the spec's example), enqueued in that
order. -/
def depthsExample : List QNode :=
  [{ id := 0, depth := 3 }, { id := 1, depth := 1 },
   { id := 2, depth := 2 }, { id := 3, depth := 1 }]

/-- C7.  For every batch of dirty components enqueued into the scheduler's
heap, the drain loop pops them in non-decreasing depth order and pops each
exactly once; in particular components at depths `[3,1,2,1]` enqueued in that
order are processed at depths `[1,1,2,3]`. -/
theorem claim_C7_drain_order :
    (∀ l : List QNode,
        ((drainQueue (l.foldl enqueueNode [])).map QNode.depth).Sorted (· ≤ ·)
        ∧ (drainQueue (l.foldl enqueueNode [])).Perm l)
    ∧ (drainQueue (depthsExample.foldl enqueueNode [])).map QNode.depth
        = [1, 1, 2, 3] := by
  have hmain : ∀ l : List QNode,
      ((drainQueue (l.foldl enqueueNode [])).map QNode.depth).Sorted (· ≤ ·)
      ∧ (drainQueue (l.foldl enqueueNode [])).Perm l := by
    intro l
    have hheap : IsHeap (l.foldl enqueueNode []) :=
      foldl_enqueueNode_isHeap l [] isHeap_nil
    constructor
    · exact List.pairwise_map.mpr (drainQueue_sorted _ hheap)
    · apply List.perm_iff_count.mpr
      intro x
      rw [drainQueue_count, foldl_enqueueNode_count]
      simp
  refine ⟨hmain, ?_⟩
  have h := hmain depthsExample
  have hperm : ((drainQueue (depthsExample.foldl enqueueNode [])).map
      QNode.depth).Perm ([1, 1, 2, 3] : List Nat) := by
    have h1 := h.2.map QNode.depth
    have h2 : depthsExample.map QNode.depth = [3, 1, 2, 1] := rfl
    rw [h2] at h1
    exact h1.trans (by decide)
  exact List.eq_of_perm_of_sorted hperm h.1 (by decide)

/-! ### Claim C1: attribute removal crashes (code bug) -/

/-- C1 (code bug).  Removing a plain property is supposed to clear it on the
host element, but `ElementNode.removeAttribute` (src/h.ts line 209) executes
`node[name] = null` without `node` in scope and throws a `ReferenceError`.
Concretely: an element whose live attribute set is `{title: "x"}` updated
with a (reference-distinct) empty property bag takes the
`removeAllAttributes` path and crashes instead of clearing `title`; an
element with attributes `{id: "a", title: "x"}` updated to `{id: "a"}` takes
the two-pointer merge path and crashes on the trailing removal of `title`. -/
theorem claim_C1_attribute_removal_bug :
    elementUpdate
        { propsId := 0, attributes := some [("title", JValue.str "x")],
          hasChildren := false } 7 1 (some [])
      = Except.error JsError.referenceError
    ∧ elementUpdate
        { propsId := 0,
          attributes := some [("id", JValue.str "a"), ("title", JValue.str "x")],
          hasChildren := false } 7 1 (some [("id", JValue.str "a")])
      = Except.error JsError.referenceError := by
  constructor
  · rfl
  · simp [elementUpdate, getAttributes, sortByName, insertByName, mergeAttrs,
      removeAttribute, updateAttribute, addAttribute]

/-! ### Claim C2: non-empty to empty fragment reconciliation (code bug) -/

/-- C2 (code bug).  Reconciling a fragment holding two mounted children
against an empty descriptor list is supposed to replace the first child with
a fresh placeholder marker and unmount the rest, but the outer condition of
`FragmentNode.update` (src/h.ts line 306) already requires
`configs.length > 0`, making that branch (lines 324-332) unreachable:
control falls into the `else` where `this.node!` is `undefined` and the
`configs.length > 0` guard fails — nothing happens.  Concretely: the
children stay mounted, no marker is created, no unmount occurs and no host
operation is emitted. -/
theorem claim_C2_empty_configs_bug :
    fragmentUpdate 5 (fun _ _ => Cfg.nullC) none
      (some [VN.textN "a" 0, VN.textN "b" 1]) [] 2
      = Except.ok (none, some [VN.textN "a" 0, VN.textN "b" 1], 2, []) := by
  simp [fragmentUpdate]

/-! ### Claim C8: effect cleanup runs before re-run and before removal -/

/-- Host operations that take a node out of the host tree. -/
def isRemovalOp : HOp → Bool
  | HOp.removeNode _ => true
  | HOp.replaceNode _ _ => true
  | _ => false

theorem cleanupOps_eq_map (effects : List EffectRec) :
    cleanupOps effects = (effectTags effects).map HOp.runCleanup := by
  unfold cleanupOps effectTags
  rw [List.map_filterMap]

mutual
theorem runCleanup_mem_unmount (v : VN) (k : Nat) :
    HOp.runCleanup k ∈ unmountOps v → k ∈ vnCleanupTags v := by
  match v with
  | VN.nullN nid => intro h; simp [unmountOps] at h
  | VN.textN s nid => intro h; simp [unmountOps] at h
  | VN.elemN t st nid => intro h; simp [unmountOps] at h
  | VN.fragN (some nid) ch => intro h; simp [unmountOps] at h
  | VN.fragN none (some cs) =>
    intro h
    simp only [unmountOps] at h
    simpa [vnCleanupTags] using runCleanup_mem_unmountList cs k h
  | VN.fragN none none => intro h; simp [unmountOps] at h
  | VN.compN fn pid effects m d child =>
    intro h
    simp only [unmountOps, List.mem_append] at h
    rcases h with h | h
    · rw [cleanupOps_eq_map] at h
      obtain ⟨t, ht, hte⟩ := List.mem_map.mp h
      have : t = k := by injection hte
      subst this
      simp [vnCleanupTags, List.mem_append, ht]
    · simp [vnCleanupTags, List.mem_append, runCleanup_mem_unmount child k h]
  | VN.provN a b c dd ee child =>
    intro h
    simp only [unmountOps] at h
    simpa [vnCleanupTags] using runCleanup_mem_unmount child k h

theorem runCleanup_mem_unmountList (cs : List VN) (k : Nat) :
    HOp.runCleanup k ∈ unmountListOps cs → k ∈ vnListCleanupTags cs := by
  match cs with
  | [] => intro h; simp [unmountListOps] at h
  | c :: rest =>
    intro h
    simp only [unmountListOps, List.mem_append] at h
    rcases h with h | h
    · simp [vnListCleanupTags, List.mem_append, runCleanup_mem_unmount c k h]
    · simp [vnListCleanupTags, List.mem_append, runCleanup_mem_unmountList rest k h]
end

theorem cleanupOps_no_removal (effects : List EffectRec) (op : HOp)
    (h : op ∈ cleanupOps effects) : isRemovalOp op = false := by
  rw [cleanupOps_eq_map] at h
  obtain ⟨t, _, hte⟩ := List.mem_map.mp h
  rw [← hte]
  rfl

/-- C8.  (1) The update-effect runner built by `useCommonEffect` runs the
previously registered cleanup strictly before the effect body and stores the
new cleanup.  (2) Unmounting a component runs each of its registered cleanups
exactly as many times as registered (once, for a once-registered tag), and
every such cleanup precedes every host-node removal in the trace.  (3) In the
concrete scenario where the parent's descriptor for a component (with one
effect whose cleanup is registered) becomes null, the cleanup is invoked
exactly once, before the component's host node is replaced by the
placeholder. -/
theorem claim_C8_cleanup_ordering :
    (∀ (e : EffectRec) (bodyTag : Nat) (newCleanup : Option Nat) (k : Nat),
        e.cleanup = some k →
        (runUpdateEffect e bodyTag newCleanup).2
            = [HOp.runCleanup k, HOp.runEffectBody bodyTag]
        ∧ (runUpdateEffect e bodyTag newCleanup).1.cleanup = newCleanup)
    ∧ (∀ (fn pid : Nat) (effects : List EffectRec) (m d : Bool) (child : VN) (k : Nat),
        k ∉ vnCleanupTags child →
        (unmountOps (VN.compN fn pid effects m d child)).count (HOp.runCleanup k)
            = (effectTags effects).count k
        ∧ (∀ (i j : Nat) (op : HOp),
            (unmountOps (VN.compN fn pid effects m d child))[i]?
              = some (HOp.runCleanup k) →
            (unmountOps (VN.compN fn pid effects m d child))[j]? = some op →
            isRemovalOp op = true → i < j))
    ∧ (updateVNode 1 (fun _ _ => Cfg.nullC)
        (VN.compN 0 0 [{ dependencies := none, cleanup := some 7 }] true false
          (VN.elemN "div" { propsId := 0, attributes := none, hasChildren := false } 3))
        Cfg.nullC 10
      = Except.ok (VN.nullN 10, 11,
          [HOp.createMarker 10, HOp.runCleanup 7, HOp.replaceNode 3 10])) := by
  refine ⟨?_, ?_, ?_⟩
  · intro e bodyTag newCleanup k hk
    unfold runUpdateEffect
    rw [hk]
    exact ⟨rfl, rfl⟩
  · intro fn pid effects m d child k hdisj
    have hops : unmountOps (VN.compN fn pid effects m d child)
        = cleanupOps effects ++ unmountOps child := by
      simp [unmountOps]
    have hnotmem : HOp.runCleanup k ∉ unmountOps child :=
      fun hmem => hdisj (runCleanup_mem_unmount child k hmem)
    constructor
    · rw [hops, List.count_append, cleanupOps_eq_map,
        List.count_map_of_injective _ HOp.runCleanup
          (fun a b hab => by injection hab),
        List.count_eq_zero.mpr hnotmem]
      omega
    · intro i j op hi hj hrem
      rw [hops] at hi hj
      have hiA : i < (cleanupOps effects).length := by
        by_contra hge
        rw [List.getElem?_append_right (by omega)] at hi
        exact hnotmem (List.getElem?_mem hi)
      have hjA : ¬ j < (cleanupOps effects).length := by
        intro hlt
        rw [List.getElem?_append_left hlt] at hj
        have := cleanupOps_no_removal effects op (List.getElem?_mem hj)
        rw [this] at hrem
        exact absurd hrem (by simp)
      omega
  · simp [updateVNode, replaceWithOps, cleanupOps, effectTags]

/-- Witness for C8: the runner ordering and the unmount ordering at a
concrete component. -/
theorem claim_C8_cleanup_ordering_witness :
    ((runUpdateEffect { dependencies := none, cleanup := some 3 } 8 (some 4)).2
        = [HOp.runCleanup 3, HOp.runEffectBody 8])
    ∧ ((unmountOps (VN.compN 0 0 [{ dependencies := none, cleanup := some 3 }]
          true false (VN.textN "t" 5))).count (HOp.runCleanup 3)
        = (effectTags [{ dependencies := none, cleanup := some 3 }]).count 3) := by
  constructor
  · exact (claim_C8_cleanup_ordering.1 { dependencies := none, cleanup := some 3 }
      8 (some 4) 3 rfl).1
  · exact (claim_C8_cleanup_ordering.2.1 0 0
      [{ dependencies := none, cleanup := some 3 }] true false (VN.textN "t" 5) 3
      (by simp [vnCleanupTags])).1

theorem cfgSize_pos (c : Cfg) : 0 < cfgSize c := by
  cases c <;> simp [cfgSize]

mutual
theorem updateMatched (v : VN) (c : Cfg) (fuel : Nat) (funs : Nat → Nat → Cfg)
    (n : Nat) (h : matchesB v c = true) :
    ∃ v2, updateVNode fuel funs v c n = Except.ok (v2, n, []) := by
  match c, v with
  | Cfg.nullC, VN.nullN nid =>
    exact ⟨VN.nullN nid, by simp [updateVNode]⟩
  | Cfg.nullC, VN.textN s nid => simp [matchesB] at h
  | Cfg.nullC, VN.elemN t st nid => simp [matchesB] at h
  | Cfg.nullC, VN.fragN a b => simp [matchesB] at h
  | Cfg.nullC, VN.compN a b cc dd e f => simp [matchesB] at h
  | Cfg.nullC, VN.provN a b cc dd e f => simp [matchesB] at h
  | Cfg.textC s, VN.textN s0 nid =>
    have hs : s0 = s := by simpa [matchesB] using h
    subst hs
    exact ⟨VN.textN s0 nid, by simp [updateVNode]⟩
  | Cfg.textC s, VN.nullN nid => simp [matchesB] at h
  | Cfg.textC s, VN.elemN t st nid => simp [matchesB] at h
  | Cfg.textC s, VN.fragN a b => simp [matchesB] at h
  | Cfg.textC s, VN.compN a b cc dd e f => simp [matchesB] at h
  | Cfg.textC s, VN.provN a b cc dd e f => simp [matchesB] at h
  | Cfg.elemC tag pid props, VN.elemN tag0 st nid =>
    have hs : tag0 = tag ∧ st.propsId = pid := by simpa [matchesB] using h
    refine ⟨VN.elemN tag0 st nid, ?_⟩
    simp only [updateVNode]
    rw [if_pos hs.1]
    unfold elementUpdate
    rw [if_pos hs.2.symm]
  | Cfg.elemC tag pid props, VN.nullN nid => simp [matchesB] at h
  | Cfg.elemC tag pid props, VN.textN s nid => simp [matchesB] at h
  | Cfg.elemC tag pid props, VN.fragN a b => simp [matchesB] at h
  | Cfg.elemC tag pid props, VN.compN a b cc dd e f => simp [matchesB] at h
  | Cfg.elemC tag pid props, VN.provN a b cc dd e f => simp [matchesB] at h
  | Cfg.compC fn pid, VN.compN fn0 pid0 effects m d child =>
    have hs : fn0 = fn ∧ pid0 = pid := by simpa [matchesB] using h
    refine ⟨VN.compN fn0 pid0 effects m d child, ?_⟩
    simp only [updateVNode]
    rw [if_pos hs.1, if_pos hs.2.symm]
  | Cfg.compC fn pid, VN.nullN nid => simp [matchesB] at h
  | Cfg.compC fn pid, VN.textN s nid => simp [matchesB] at h
  | Cfg.compC fn pid, VN.elemN t st nid => simp [matchesB] at h
  | Cfg.compC fn pid, VN.fragN a b => simp [matchesB] at h
  | Cfg.compC fn pid, VN.provN a b cc dd e f => simp [matchesB] at h
  | Cfg.fragC cs, VN.fragN nid children =>
    obtain ⟨ch2, hfrag⟩ := fragmentMatched nid children cs fuel funs n h
    refine ⟨VN.fragN nid ch2, ?_⟩
    simp only [updateVNode]
    rw [hfrag]
  | Cfg.fragC cs, VN.nullN nid => simp [matchesB] at h
  | Cfg.fragC cs, VN.textN s nid => simp [matchesB] at h
  | Cfg.fragC cs, VN.elemN t st nid => simp [matchesB] at h
  | Cfg.fragC cs, VN.compN a b cc dd e f => simp [matchesB] at h
  | Cfg.fragC cs, VN.provN a b cc dd e f => simp [matchesB] at h
  | Cfg.provC cfgId tok pid pv cs, VN.provN cfgId0 tok0 pid0 v0 cs0 child =>
    have hs : ((tok0 = tok ∧ pid0 = pid) ∧ v0 = pv) ∧
        matchesB child (Cfg.fragC cs) = true := by
      simpa [matchesB] using h
    obtain ⟨⟨⟨htok, hpid⟩, hv0⟩, hchild⟩ := hs
    by_cases hcfg : cfgId = cfgId0
    · match child, hchild with
      | VN.fragN fnid fch, hchild2 =>
        refine ⟨VN.provN cfgId0 tok0 pid0 v0 cs0 (VN.fragN fnid fch), ?_⟩
        simp only [updateVNode]
        split
        all_goals simp_all
    · match child, hchild with
      | VN.fragN fnid fch, hchild2 =>
        obtain ⟨ch2, hfrag⟩ := fragmentMatched fnid fch cs fuel funs n hchild2
        refine ⟨VN.provN cfgId tok pid pv cs (VN.fragN fnid ch2), ?_⟩
        simp only [updateVNode]
        split
        all_goals simp_all [hfrag]
  | Cfg.provC cfgId tok pid pv cs, VN.nullN nid => simp [matchesB] at h
  | Cfg.provC cfgId tok pid pv cs, VN.textN s nid => simp [matchesB] at h
  | Cfg.provC cfgId tok pid pv cs, VN.elemN t st nid => simp [matchesB] at h
  | Cfg.provC cfgId tok pid pv cs, VN.fragN a b => simp [matchesB] at h
  | Cfg.provC cfgId tok pid pv cs, VN.compN a b cc dd e f => simp [matchesB] at h
termination_by 3 * cfgSize c
decreasing_by
  all_goals simp [cfgSize, cfgListSize]
  all_goals omega

theorem updateListMatched (vs : List VN) (cs : List Cfg) (fuel : Nat)
    (funs : Nat → Nat → Cfg) (n : Nat) (h : matchesList vs cs = true) :
    ∃ vs2, updateList fuel funs vs cs n = Except.ok (vs2, [], [], n, []) := by
  match vs, cs with
  | [], [] => exact ⟨[], by simp [updateList]⟩
  | v :: vrest, [] => simp [matchesList] at h
  | [], c :: crest => simp [matchesList] at h
  | v :: vrest, c :: crest =>
    have hs : matchesB v c = true ∧ matchesList vrest crest = true := by
      simpa [matchesList] using h
    obtain ⟨v2, hv⟩ := updateMatched v c fuel funs n hs.1
    obtain ⟨vs2, hvs⟩ := updateListMatched vrest crest fuel funs n hs.2
    refine ⟨v2 :: vs2, ?_⟩
    simp only [updateList]
    rw [hv]
    dsimp only
    rw [hvs]
    simp
termination_by 3 * cfgListSize cs + 1
decreasing_by
  all_goals simp [cfgSize, cfgListSize]
  · have := cfgSize_pos c
    omega
  · have := cfgSize_pos c
    omega

theorem fragmentMatched (nid : Option Nat) (children : Option (List VN))
    (cs : List Cfg) (fuel : Nat) (funs : Nat → Nat → Cfg) (n : Nat)
    (h : matchesB (VN.fragN nid children) (Cfg.fragC cs) = true) :
    ∃ ch2, fragmentUpdate fuel funs nid children cs n
      = Except.ok (nid, ch2, n, []) := by
  match children with
  | none =>
    have hcs : cs = [] := by
      cases cs with
      | nil => rfl
      | cons a b => simp [matchesB] at h
    subst hcs
    exact ⟨none, by simp [fragmentUpdate]⟩
  | some chs =>
    have hm : matchesList chs cs = true := by simpa [matchesB] using h
    by_cases hlen : cs.length > 0
    · obtain ⟨vs2, hlist⟩ := updateListMatched chs cs fuel funs n hm
      refine ⟨some vs2, ?_⟩
      simp only [fragmentUpdate]
      rw [if_pos hlen, if_pos hlen, hlist]
      dsimp only
      simp [appendLoop, unmountListOps]
    · refine ⟨some chs, ?_⟩
      simp only [fragmentUpdate]
      rw [if_neg hlen]
termination_by 3 * cfgListSize cs + 2
decreasing_by
  all_goals omega
end

/-- C9: for every mounted Element, Component, or Provider node (and any other
mounted node), re-supplying a descriptor whose property bag is
reference-identical to the currently stored one — modelled by `matchesB` —
produces zero observable host mutations: `updateVNode` succeeds with an empty
operation trace (no creation, property assignment, insertion, or removal)
and allocates no new host node. -/
theorem claim_C9_noop_update (v : VN) (c : Cfg) (fuel : Nat)
    (funs : Nat → Nat → Cfg) (n : Nat) (h : matchesB v c = true) :
    ∃ v2, updateVNode fuel funs v c n = Except.ok (v2, n, []) :=
  updateMatched v c fuel funs n h

/-- Witness for C9: a provider over a fragment with one text child, re-supplied
with a matching descriptor (distinct descriptor-object identity, same token,
props identity, value and children), updates with an empty operation trace. -/
theorem claim_C9_noop_update_witness :
    matchesB (VN.provN 7 1 2 (JValue.num 5) [Cfg.textC "x"]
        (VN.fragN (some 3) (some [VN.textN "x" 4])))
      (Cfg.provC 9 1 2 (JValue.num 5) [Cfg.textC "x"]) = true
    ∧ ∃ v2, updateVNode 1 (fun _ _ => Cfg.nullC)
        (VN.provN 7 1 2 (JValue.num 5) [Cfg.textC "x"]
          (VN.fragN (some 3) (some [VN.textN "x" 4])))
        (Cfg.provC 9 1 2 (JValue.num 5) [Cfg.textC "x"]) 0
        = Except.ok (v2, 0, []) :=
  ⟨by decide, claim_C9_noop_update
    (VN.provN 7 1 2 (JValue.num 5) [Cfg.textC "x"]
      (VN.fragN (some 3) (some [VN.textN "x" 4])))
    (Cfg.provC 9 1 2 (JValue.num 5) [Cfg.textC "x"])
    1 (fun _ _ => Cfg.nullC) 0 (by decide)⟩

end HRuntime
